import Mathlib

/-!
Shallow embedding of the Planets API backend (src/Backend/app.py, the
FastAPI variant, and src/Backend/flask_app.py, the Flask variant):
password hashing, JWT issuance and verification, the request guards,
and the guarded CRUD handlers for planets.

Modelling conventions:
* strings are `List Char` (`Str`), time is an integer timestamp in
  seconds;
* the external cryptographic libraries are modelled as idealised,
  collision-free primitives: the JWT signature is an injective pairing
  of the key code and the content code, and the bcrypt digest records
  its salt together with an injective code of the password;
* the token wire format is a compact signed string: the decimal
  signature, a dot, then the dot-free serialised content (algorithm,
  subject, expiry), mirroring the shape "signed content plus signature
  separated by dots" of a real JWT;
* all recursion is structural (fuel-driven where the source of
  decrease is numeric), so every definition evaluates by kernel
  reduction.
-/

abbrev Str := List Char

/-- Injective numeric code of a string: base `1114113` (one more than
the number of Unicode scalar values), one digit per character, each
digit being the code point plus one, so only the empty string has code
zero. -/
def strCode : Str → Nat
  | [] => 0
  | c :: s => (c.toNat + 1) + 1114113 * strCode s

/-- Fuel-driven inverse of `strCode`. -/
def strDecodeAux : Nat → Nat → Str
  | 0, _ => []
  | fuel + 1, n =>
    if n = 0 then []
    else Char.ofNat (n % 1114113 - 1) :: strDecodeAux fuel (n / 1114113)

/-- Inverse of `strCode`. -/
def strDecode (n : Nat) : Str := strDecodeAux n n

/-- Little-endian base-50000 digits of a natural number, with fuel. -/
def natDigitsAux : Nat → Nat → List Nat
  | 0, _ => []
  | fuel + 1, n => if n = 0 then [] else n % 50000 :: natDigitsAux fuel (n / 50000)

/-- Numeral-alphabet rendering of a natural number (wire alphabet of
the model's token numerals: code points 128 to 50127, standing in for
base64url), most significant digit first; empty for zero. -/
def natDigits (n : Nat) : Str :=
  ((natDigitsAux n n).map (fun d => Char.ofNat (128 + d))).reverse

/-- Character class of the numeral alphabet. -/
def isWide (c : Char) : Bool := decide (128 ≤ c.toNat) && decide (c.toNat < 50128)

/-- Numeric value of a most-significant-first numeral string. -/
def digitsVal (l : Str) : Nat := l.foldl (fun a c => 50000 * a + (c.toNat - 128)) 0

/-- Parse a nonempty numeral-alphabet string as a natural number. -/
def digitsToNat (l : Str) : Option Nat :=
  if l ≠ [] ∧ l.all isWide then some (digitsVal l) else none

/-- Render `n` so that the rendering of every natural number (zero
included) is nonempty and parses back. -/
def numToStr (n : Nat) : Str := natDigits (n + 1)

/-- Inverse of `numToStr`. -/
def strToNum (l : Str) : Option Nat :=
  (digitsToNat l).bind fun n => if n = 0 then none else some (n - 1)

/-- Injective code of an integer as a natural number. -/
def intCode : Int → Nat
  | .ofNat n => 2 * n
  | .negSucc n => 2 * n + 1

/-- Inverse of `intCode`. -/
def intDecode (n : Nat) : Int :=
  if n % 2 = 0 then ((n / 2 : Nat) : Int) else Int.negSucc (n / 2)

/-- Split a list at the first occurrence of `sep`. -/
def splitFirst (sep : Char) : Str → Option (Str × Str)
  | [] => none
  | c :: rest =>
    if c = sep then some ([], rest)
    else (splitFirst sep rest).map (fun p => (c :: p.1, p.2))

/-- Model of Python `str.split(" ")`: split on every single space,
keeping empty fragments. -/
def splitSp : Str → List Str
  | [] => [[]]
  | c :: rest =>
    if c = ' ' then [] :: splitSp rest
    else
      match splitSp rest with
      | [] => [[c]]
      | w :: ws => (c :: w) :: ws

/-- Model of Python `str.lower` on one character (ASCII letters). -/
def lowerChar (c : Char) : Char :=
  if 'A' ≤ c ∧ c ≤ 'Z' then Char.ofNat (c.toNat + 32) else c

/-- Idealised symmetric MAC used by the JWT model: an injective pairing
of the key code and the message code (collision-free abstraction of
HMAC-SHA256). -/
def mac (key msg : Str) : Nat := Nat.pair (strCode key) (strCode msg)

/-- Idealised bcrypt digest: records the salt and an injective code of
the salt/password pair (collision-free abstraction of the bcrypt
primitive; the salt is drawn fresh by the caller of `hash`). -/
structure Digest where
  salt : Nat
  val : Nat
deriving DecidableEq

/-- JWT claims payload: optional subject (`"sub"`) and expiry
(`"exp"`). -/
structure Payload where
  sub : Option Str
  exp : Int
deriving DecidableEq

/-- Wire encoding of the subject claim: `n` for an absent subject,
otherwise `s` followed by the decimal code of the subject. -/
def serializeSub : Option Str → Str
  | none => ['n']
  | some s => 's' :: numToStr (strCode s)

/-- Parse the wire encoding of the subject claim. -/
def parseSub : Str → Option (Option Str)
  | [] => none
  | c :: rest =>
    if c = 'n' ∧ rest = [] then some none
    else if c = 's' then (strToNum rest).map (fun n => some (strDecode n))
    else none

/-- Wire encoding of the signed token content: decimal code of the
algorithm, the subject claim and the decimal code of the expiry,
separated by bars.  The result never contains a dot. -/
def serializeContent (alg : Str) (sub : Option Str) (exp : Int) : Str :=
  numToStr (strCode alg) ++ ('|' :: (serializeSub sub ++ ('|' :: numToStr (intCode exp))))

/-- Parse the wire encoding of the signed token content back into the
algorithm, subject and expiry. -/
def parseContent (content : Str) : Option (Str × Option Str × Int) :=
  match splitFirst '|' content with
  | none => none
  | some (aPart, rest) =>
    match splitFirst '|' rest with
    | none => none
    | some (bPart, cPart) =>
      match strToNum aPart, parseSub bPart, strToNum cPart with
      | some a, some sub, some e => some (strDecode a, sub, intDecode e)
      | _, _, _ => none

/-- Model of `jwt.encode(payload, key, algorithm)` (jose in app.py,
PyJWT in flask_app.py): the decimal MAC signature, a dot, then the
serialised content. -/
def encodeJwt (key : Str) (alg : Str) (sub : Option Str) (exp : Int) : Str :=
  natDigits (mac key (serializeContent alg sub exp)) ++
    '.' :: serializeContent alg sub exp

/-- Model of `jwt.decode(token, key, algorithms=algs)` evaluated at
time `now`: parses the wire string, checks the signature against
`key`, pins the algorithm to the caller-supplied list `algs`, and
rejects tokens whose expiry is not in the future.  Any failure is the
library's `JWTError` / `PyJWTError`, modelled as `none`. -/
def decodeJwt (key : Str) (algs : List Str) (now : Int) (token : Str) : Option Payload :=
  match splitFirst '.' token with
  | none => none
  | some (sigPart, content) =>
    match digitsToNat sigPart, parseContent content with
    | some sig, some (alg, sub, exp) =>
      if sig = mac key content ∧ alg ∈ algs ∧ now < exp then some ⟨sub, exp⟩ else none
    | _, _ => none

/-- `pwd_context.hash` (passlib bcrypt), idealised; the fresh random
salt is an explicit parameter of the model. -/
def get_password_hash (salt : Nat) (password : Str) : Digest :=
  ⟨salt, Nat.pair salt (strCode password)⟩

/-- `pwd_context.verify` (passlib bcrypt), idealised: recompute with
the salt embedded in the digest and compare. -/
def verify_password (plain_password : Str) (hashed_password : Digest) : Bool :=
  decide (hashed_password.val = Nat.pair hashed_password.salt (strCode plain_password))

/-- Row of the `users` table. -/
structure User where
  id : Nat
  username : Str
  email : Str
  hashed_password : Digest
  is_active : Bool
deriving DecidableEq

/-- Row of the `planets` table.  The numeric payload fields are carried
opaquely by the handlers (never computed with), so they are modelled
as integers. -/
structure Planet where
  id : Nat
  name : Str
  planet_type : Str
  distance_from_sun : Int
  radius : Int
  description : Option Str
  mass : Option Int
  orbital_period : Option Int
  created_at : Int
  updated_at : Int
deriving DecidableEq

/-- `PlanetCreate` request body. -/
structure PlanetCreate where
  name : Str
  planet_type : Str
  distance_from_sun : Int
  radius : Int
  description : Option Str
  mass : Option Int
  orbital_period : Option Int
deriving DecidableEq

/-- `PlanetUpdate` request body: one optional field per mutable
attribute; `none` models a field on which the update is silent (not
provided in app.py's `exclude_unset` dict, absent or `null` in
flask_app.py's JSON body). -/
structure PlanetUpdate where
  name : Option Str
  planet_type : Option Str
  distance_from_sun : Option Int
  radius : Option Int
  description : Option Str
  mass : Option Int
  orbital_period : Option Int
deriving DecidableEq

/-- Outcome of a request guard: an authenticated user, or a rejection
carrying the HTTP status code and message. -/
inductive AuthOutcome where
  | ok (user : User)
  | rejected (status : Nat) (message : Str)
deriving DecidableEq

/-- Field-by-field application of the provided patch fields, plus the
`updated_at` stamp (app.py lines 341-347: `setattr` over the
`exclude_unset` dict, with `updated_at` refreshed by the column's
`onupdate`; flask_app.py lines 198-201: assign each provided non-null
field, then stamp `updated_at`). -/
def applyPatch (p : Planet) (u : PlanetUpdate) (now : Int) : Planet :=
  { p with
    name := u.name.getD p.name
    planet_type := u.planet_type.getD p.planet_type
    distance_from_sun := u.distance_from_sun.getD p.distance_from_sun
    radius := u.radius.getD p.radius
    description := match u.description with | some d => some d | none => p.description
    mass := match u.mass with | some m => some m | none => p.mass
    orbital_period := match u.orbital_period with | some o => some o | none => p.orbital_period
    updated_at := now }

namespace FastApi

/-- app.py line 31 (environment default). -/
def SECRET_KEY : Str :=
  "your-secret-key-change-in-production-make-it-long-and-random".toList

/-- app.py line 32 (environment default). -/
def ALGORITHM : Str := "HS256".toList

/-- app.py line 33 (environment default). -/
def ACCESS_TOKEN_EXPIRE_MINUTES : Int := 30

/-- app.py `create_access_token`: expiry is `now` plus the supplied
delta, defaulting to `ACCESS_TOKEN_EXPIRE_MINUTES` minutes; the
payload (here just the optional subject) is signed with the
process-wide secret and algorithm. -/
def create_access_token (data : Option Str) (expires_delta : Option Int) (now : Int) : Str :=
  let expire : Int :=
    match expires_delta with
    | some d => now + d
    | none => now + ACCESS_TOKEN_EXPIRE_MINUTES * 60
  encodeJwt SECRET_KEY ALGORITHM data expire

/-- app.py `verify_token`: decode with the pinned algorithm list, then
require a subject claim; both a decode failure and a missing subject
raise the caller's `credentials_exception` (modelled as `none`). -/
def verify_token (token : Str) (now : Int) : Option Str :=
  match decodeJwt SECRET_KEY [ALGORITHM] now token with
  | none => none
  | some payload => payload.sub

/-- app.py `authenticate_user`. -/
def authenticate_user (db : List User) (username password : Str) : Option User :=
  match db.find? (fun u => decide (u.username = username)) with
  | none => none
  | some user =>
    if verify_password password user.hashed_password then some user else none

/-- Model of `fastapi.security.HTTPBearer` (library semantics with
`auto_error`): a missing or empty header, or one without both a scheme
and a credentials part, is a 403 "Not authenticated"; a scheme other
than case-insensitive "bearer" is a 403 "Invalid authentication
credentials"; otherwise the credentials part (everything after the
first space) is returned. -/
def httpBearer (header : Option Str) : Except (Nat × Str) Str :=
  match header with
  | none => .error (403, "Not authenticated".toList)
  | some h =>
    let scheme := h.takeWhile (fun c => decide (c ≠ ' '))
    let credentials := (h.dropWhile (fun c => decide (c ≠ ' '))).tail
    if h = [] ∨ scheme = [] ∨ credentials = [] then
      .error (403, "Not authenticated".toList)
    else if scheme.map lowerChar ≠ "bearer".toList then
      .error (403, "Invalid authentication credentials".toList)
    else .ok credentials

/-- app.py `get_current_user`: run the `HTTPBearer` dependency, verify
the token, and resolve the subject to a user row; a verification
failure or an unknown subject is the 401 `credentials_exception`. -/
def get_current_user (db : List User) (header : Option Str) (now : Int) : AuthOutcome :=
  match httpBearer header with
  | .error e => .rejected e.1 e.2
  | .ok token =>
    match verify_token token now with
    | none => .rejected 401 ("Could not validate credentials".toList)
    | some username =>
      match db.find? (fun u => decide (u.username = username)) with
      | none => .rejected 401 ("Could not validate credentials".toList)
      | some user => .ok user

/-- app.py `create_planet` endpoint: guard, unique-name check, insert
(the database-assigned primary key is the parameter `newId`; both
timestamps are the server's `now`). -/
def create_planet (users : List User) (planets : List Planet) (header : Option Str)
    (now : Int) (newId : Nat) (planet : PlanetCreate) :
    Except (Nat × Str) Planet × List Planet :=
  match get_current_user users header now with
  | .rejected code msg => (.error (code, msg), planets)
  | .ok _ =>
    match planets.find? (fun q => decide (q.name = planet.name)) with
    | some _ => (.error (400, "Planet with this name already exists".toList), planets)
    | none =>
      let db_planet : Planet :=
        { id := newId, name := planet.name, planet_type := planet.planet_type,
          distance_from_sun := planet.distance_from_sun, radius := planet.radius,
          description := planet.description, mass := planet.mass,
          orbital_period := planet.orbital_period, created_at := now, updated_at := now }
      (.ok db_planet, planets ++ [db_planet])

/-- app.py `update_planet` endpoint: guard, lookup by primary key,
apply the provided fields, write back. -/
def update_planet (users : List User) (planets : List Planet) (header : Option Str)
    (now : Int) (planet_id : Nat) (planet_update : PlanetUpdate) :
    Except (Nat × Str) Planet × List Planet :=
  match get_current_user users header now with
  | .rejected code msg => (.error (code, msg), planets)
  | .ok _ =>
    match planets.find? (fun q => decide (q.id = planet_id)) with
    | none => (.error (404, "Planet not found".toList), planets)
    | some p =>
      let p2 := applyPatch p planet_update now
      (.ok p2, planets.map (fun q => if q.id = planet_id then p2 else q))

/-- app.py `delete_planet` endpoint: guard, lookup by primary key,
delete the row. -/
def delete_planet (users : List User) (planets : List Planet) (header : Option Str)
    (now : Int) (planet_id : Nat) : Except (Nat × Str) Unit × List Planet :=
  match get_current_user users header now with
  | .rejected code msg => (.error (code, msg), planets)
  | .ok _ =>
    match planets.find? (fun q => decide (q.id = planet_id)) with
    | none => (.error (404, "Planet not found".toList), planets)
    | some _ => (.ok (), planets.filter (fun q => decide (q.id ≠ planet_id)))

end FastApi

namespace FlaskApp

/-- flask_app.py line 20. -/
def SECRET_KEY : Str := "your-secret-key-change-in-production".toList

/-- flask_app.py line 21. -/
def ALGORITHM : Str := "HS256".toList

/-- flask_app.py line 22. -/
def ACCESS_TOKEN_EXPIRE_MINUTES : Int := 30

/-- flask_app.py `create_access_token` (same shape as the FastAPI
variant, but signed with this module's secret). -/
def create_access_token (data : Option Str) (expires_delta : Option Int) (now : Int) : Str :=
  let expire : Int :=
    match expires_delta with
    | some d => now + d
    | none => now + ACCESS_TOKEN_EXPIRE_MINUTES * 60
  encodeJwt SECRET_KEY ALGORITHM data expire

/-- flask_app.py `verify_token`: returns the subject, or `None` when
decoding fails or the subject claim is absent. -/
def verify_token (token : Str) (now : Int) : Option Str :=
  match decodeJwt SECRET_KEY [ALGORITHM] now token with
  | none => none
  | some payload => payload.sub

/-- flask_app.py `token_required` decorator: take the second
space-separated word of the Authorization header as the token (the
scheme word is never inspected), and reject with 401 in every failure
case — missing/short/empty header word, failed verification, empty or
unknown subject. -/
def token_required (users : List User) (header : Option Str) (now : Int) : AuthOutcome :=
  match header with
  | none => .rejected 401 ("Token is missing".toList)
  | some h =>
    match (splitSp h)[1]? with
    | none => .rejected 401 ("Token is missing".toList)
    | some token =>
      if token = [] then .rejected 401 ("Token is missing".toList)
      else
        match verify_token token now with
        | none => .rejected 401 ("Token is invalid".toList)
        | some username =>
          if username = [] then .rejected 401 ("Token is invalid".toList)
          else
            match users.find? (fun u => decide (u.username = username)) with
            | none => .rejected 401 ("User not found".toList)
            | some user => .ok user

/-- flask_app.py `create_planet` endpoint: guard, unique-name check,
insert with `id` one past the maximum existing id. -/
def create_planet (users : List User) (planets : List Planet) (header : Option Str)
    (now : Int) (planet : PlanetCreate) :
    Except (Nat × Str) Planet × List Planet :=
  match token_required users header now with
  | .rejected code msg => (.error (code, msg), planets)
  | .ok _ =>
    match planets.find? (fun q => decide (q.name = planet.name)) with
    | some _ => (.error (400, "Planet with this name already exists".toList), planets)
    | none =>
      let new_id := (planets.foldl (fun a q => max a q.id) 0) + 1
      let new_planet : Planet :=
        { id := new_id, name := planet.name, planet_type := planet.planet_type,
          distance_from_sun := planet.distance_from_sun, radius := planet.radius,
          description := planet.description, mass := planet.mass,
          orbital_period := planet.orbital_period, created_at := now, updated_at := now }
      (.ok new_planet, planets ++ [new_planet])

/-- flask_app.py `update_planet` endpoint: guard, lookup by id, apply
the provided non-null fields in place, stamp `updated_at`. -/
def update_planet (users : List User) (planets : List Planet) (header : Option Str)
    (now : Int) (planet_id : Nat) (data : PlanetUpdate) :
    Except (Nat × Str) Planet × List Planet :=
  match token_required users header now with
  | .rejected code msg => (.error (code, msg), planets)
  | .ok _ =>
    match planets.find? (fun q => decide (q.id = planet_id)) with
    | none => (.error (404, "Planet not found".toList), planets)
    | some p =>
      let p2 := applyPatch p data now
      (.ok p2, planets.map (fun q => if q.id = planet_id then p2 else q))

/-- flask_app.py `delete_planet` endpoint: guard, lookup by id, filter
the row out. -/
def delete_planet (users : List User) (planets : List Planet) (header : Option Str)
    (now : Int) (planet_id : Nat) : Except (Nat × Str) Unit × List Planet :=
  match token_required users header now with
  | .rejected code msg => (.error (code, msg), planets)
  | .ok _ =>
    match planets.find? (fun q => decide (q.id = planet_id)) with
    | none => (.error (404, "Planet not found".toList), planets)
    | some _ => (.ok (), planets.filter (fun q => decide (q.id ≠ planet_id)))

end FlaskApp

set_option maxRecDepth 40000

/-! ### Basic facts about the character and numeral encodings -/

theorem char_toNat_lt_valid (c : Char) : c.toNat < 1114112 := by
  have h := c.valid
  rcases h with h | ⟨_, h2⟩ <;> · simp [Char.toNat] at * <;> omega

theorem char_eq_of_toNat_eq {c d : Char} (h : c.toNat = d.toNat) : c = d :=
  Char.eq_of_val_eq (UInt32.eq_of_toBitVec_eq (BitVec.eq_of_toNat_eq h))

theorem toNat_ofNat_of_valid {n : Nat} (h : n.isValidChar) : (Char.ofNat n).toNat = n := by
  simp [Char.ofNat, h, Char.ofNatAux, Char.toNat, UInt32.toNat]

theorem ofNat_toNat_char (c : Char) : Char.ofNat c.toNat = c := by
  apply char_eq_of_toNat_eq
  exact toNat_ofNat_of_valid c.valid

theorem length_le_strCode (s : Str) : s.length ≤ strCode s := by
  induction s with
  | nil => simp [strCode]
  | cons c t ih =>
    have h2 : strCode t ≤ 1114113 * strCode t := Nat.le_mul_of_pos_left _ (by omega)
    simp only [strCode, List.length_cons]
    omega

theorem strDecodeAux_strCode (s : Str) : ∀ fuel, s.length ≤ fuel →
    strDecodeAux fuel (strCode s) = s := by
  induction s with
  | nil =>
    intro fuel _
    cases fuel with
    | zero => rfl
    | succ f => simp [strDecodeAux, strCode]
  | cons c t ih =>
    intro fuel hf
    cases fuel with
    | zero => simp at hf
    | succ f =>
      have hc : c.toNat + 1 < 1114113 := by
        have := char_toNat_lt_valid c
        omega
      have hne : strCode (c :: t) ≠ 0 := by
        simp only [strCode]
        omega
      have hmod : strCode (c :: t) % 1114113 = c.toNat + 1 := by
        simp only [strCode]
        rw [Nat.add_mul_mod_self_left]
        exact Nat.mod_eq_of_lt hc
      have hdiv : strCode (c :: t) / 1114113 = strCode t := by
        simp only [strCode]
        rw [Nat.add_mul_div_left _ _ (by omega : 0 < 1114113)]
        rw [Nat.div_eq_of_lt hc]
        omega
      simp only [strDecodeAux, hne, if_false, hmod, hdiv]
      rw [Nat.add_sub_cancel, ofNat_toNat_char]
      have hlen : t.length ≤ f := by
        simp only [List.length_cons] at hf
        omega
      rw [ih f hlen]

theorem strDecode_strCode (s : Str) : strDecode (strCode s) = s :=
  strDecodeAux_strCode s (strCode s) (length_le_strCode s)

theorem strCode_inj {a b : Str} (h : strCode a = strCode b) : a = b := by
  have ha := strDecode_strCode a
  have hb := strDecode_strCode b
  rw [h] at ha
  rw [hb] at ha
  exact ha.symm

theorem strCode_pos {s : Str} (h : s ≠ []) : 0 < strCode s := by
  cases s with
  | nil => exact absurd rfl h
  | cons c t => simp only [strCode]; omega

/-- Little-endian value of a digit list (helper for the numeral
proofs). -/
def lsVal (L : List Nat) : Nat := L.foldr (fun d a => 50000 * a + d) 0

theorem lsVal_natDigitsAux : ∀ fuel n, n ≤ fuel → lsVal (natDigitsAux fuel n) = n := by
  intro fuel
  induction fuel with
  | zero => intro n h; interval_cases n; rfl
  | succ f ih =>
    intro n h
    by_cases h0 : n = 0
    · subst h0; simp [natDigitsAux, lsVal]
    · have hdiv : n / 50000 ≤ f := by
        have : n / 50000 < n := Nat.div_lt_self (by omega) (by omega)
        omega
      simp only [natDigitsAux, h0, if_false, lsVal, List.foldr_cons]
      have := ih (n / 50000) hdiv
      simp only [lsVal] at this
      rw [this]
      omega

theorem natDigitsAux_lt : ∀ fuel n d, d ∈ natDigitsAux fuel n → d < 50000 := by
  intro fuel
  induction fuel with
  | zero => intro n d h; simp [natDigitsAux] at h
  | succ f ih =>
    intro n d h
    by_cases h0 : n = 0
    · subst h0; simp [natDigitsAux] at h
    · simp only [natDigitsAux, h0, if_false, List.mem_cons] at h
      rcases h with h | h
      · subst h; exact Nat.mod_lt _ (by omega)
      · exact ih _ _ h

theorem valid_wide {d : Nat} (hd : d < 50000) : Nat.isValidChar (128 + d) := by
  left; omega

theorem toNat_wideChar {d : Nat} (hd : d < 50000) : (Char.ofNat (128 + d)).toNat = 128 + d :=
  toNat_ofNat_of_valid (valid_wide hd)

theorem isWide_wideChar {d : Nat} (hd : d < 50000) : isWide (Char.ofNat (128 + d)) = true := by
  simp [isWide, toNat_wideChar hd]
  omega

theorem natDigits_all_isWide (n : Nat) : ∀ c ∈ natDigits n, isWide c = true := by
  intro c hc
  simp only [natDigits, List.mem_reverse, List.mem_map] at hc
  obtain ⟨d, hd, rfl⟩ := hc
  exact isWide_wideChar (natDigitsAux_lt _ _ _ hd)

theorem digitsVal_rev_map (L : List Nat) (h : ∀ d ∈ L, d < 50000) :
    digitsVal ((L.map (fun d => Char.ofNat (128 + d))).reverse) = lsVal L := by
  induction L with
  | nil => rfl
  | cons d T ih =>
    have hd : d < 50000 := h d (List.mem_cons_self _ _)
    have hT : ∀ x ∈ T, x < 50000 := fun x hx => h x (List.mem_cons_of_mem _ hx)
    simp only [List.map_cons, List.reverse_cons, lsVal, List.foldr_cons]
    simp only [digitsVal, List.foldl_append, List.foldl_cons, List.foldl_nil]
    have ihv := ih hT
    simp only [digitsVal] at ihv
    simp only [lsVal] at *
    rw [ihv, toNat_wideChar hd]
    omega

theorem digitsVal_natDigits (n : Nat) : digitsVal (natDigits n) = n := by
  rw [natDigits, digitsVal_rev_map _ (natDigitsAux_lt n n), lsVal_natDigitsAux n n (le_refl n)]

theorem natDigits_ne_nil {n : Nat} (h : 0 < n) : natDigits n ≠ [] := by
  intro hcontra
  have := digitsVal_natDigits n
  rw [hcontra] at this
  simp [digitsVal] at this
  omega

theorem digitsToNat_natDigits {n : Nat} (h : 0 < n) : digitsToNat (natDigits n) = some n := by
  have hne := natDigits_ne_nil h
  have hall : (natDigits n).all isWide = true := by
    rw [List.all_eq_true]
    exact natDigits_all_isWide n
  have hcond : natDigits n ≠ [] ∧ (natDigits n).all isWide := ⟨hne, hall⟩
  rw [digitsToNat, if_pos hcond, digitsVal_natDigits]

theorem digitsToNat_none_of_bad {l : Str} {c : Char} (hc : c ∈ l) (h : isWide c = false) :
    digitsToNat l = none := by
  have : l.all isWide = false := by
    rw [List.all_eq_false]
    exact ⟨c, hc, by simp [h]⟩
  simp [digitsToNat, this]

theorem digitsToNat_some_all {l : Str} {n : Nat} (h : digitsToNat l = some n) :
    l ≠ [] ∧ (∀ c ∈ l, isWide c = true) ∧ n = digitsVal l := by
  by_cases hcond : l ≠ [] ∧ l.all isWide
  · have hval : some (digitsVal l) = some n := by
      rw [← h, digitsToNat, if_pos hcond]
    exact ⟨hcond.1, List.all_eq_true.1 hcond.2, (Option.some_inj.1 hval).symm⟩
  · rw [digitsToNat, if_neg hcond] at h
    exact absurd h (by simp)

theorem digitsVal_go (l : Str) (a : Nat) :
    l.foldl (fun a c => 50000 * a + (c.toNat - 128)) a = a * 50000 ^ l.length + digitsVal l := by
  induction l generalizing a with
  | nil => simp [digitsVal]
  | cons c t ih =>
    simp only [List.foldl_cons, List.length_cons, digitsVal]
    rw [ih (50000 * a + (c.toNat - 128)), ih (50000 * 0 + (c.toNat - 128))]
    ring

theorem digitsVal_lt (l : Str) (h : ∀ c ∈ l, isWide c = true) :
    digitsVal l < 50000 ^ l.length := by
  induction l with
  | nil => simp [digitsVal]
  | cons c t ih =>
    have hc : isWide c = true := h c (List.mem_cons_self _ _)
    have hc2 : c.toNat - 128 < 50000 := by
      simp only [isWide, Bool.and_eq_true, decide_eq_true_eq] at hc
      omega
    have ht := ih (fun x hx => h x (List.mem_cons_of_mem _ hx))
    simp only [digitsVal, List.foldl_cons, List.length_cons]
    rw [digitsVal_go]
    simp only [digitsVal] at ht
    have : (50000 * 0 + (c.toNat - 128)) * 50000 ^ t.length + digitsVal t
        < (c.toNat - 128 + 1) * 50000 ^ t.length := by
      simp only [digitsVal]
      nlinarith [ht]
    calc (50000 * 0 + (c.toNat - 128)) * 50000 ^ t.length +
          List.foldl (fun a c => 50000 * a + (c.toNat - 128)) 0 t
        < (c.toNat - 128 + 1) * 50000 ^ t.length := this
      _ ≤ 50000 * 50000 ^ t.length := by
          apply Nat.mul_le_mul_right
          omega
      _ = 50000 ^ (t.length + 1) := by ring

theorem digitsVal_inj : ∀ l1 l2 : Str, l1.length = l2.length →
    (∀ c ∈ l1, isWide c = true) → (∀ c ∈ l2, isWide c = true) →
    digitsVal l1 = digitsVal l2 → l1 = l2 := by
  intro l1
  induction l1 with
  | nil =>
    intro l2 hlen _ _ _
    cases l2 with
    | nil => rfl
    | cons c t => simp at hlen
  | cons c1 t1 ih =>
    intro l2 hlen h1 h2 hv
    cases l2 with
    | nil => simp at hlen
    | cons c2 t2 =>
      have hlent : t1.length = t2.length := by simp at hlen; omega
      have hw1 : isWide c1 = true := h1 c1 (List.mem_cons_self _ _)
      have hw2 : isWide c2 = true := h2 c2 (List.mem_cons_self _ _)
      have hb1 : 128 ≤ c1.toNat ∧ c1.toNat - 128 < 50000 := by
        simp only [isWide, Bool.and_eq_true, decide_eq_true_eq] at hw1; omega
      have hb2 : 128 ≤ c2.toNat ∧ c2.toNat - 128 < 50000 := by
        simp only [isWide, Bool.and_eq_true, decide_eq_true_eq] at hw2; omega
      have hv1 : digitsVal t1 < 50000 ^ t1.length :=
        digitsVal_lt t1 (fun x hx => h1 x (List.mem_cons_of_mem _ hx))
      have hv2 : digitsVal t2 < 50000 ^ t2.length :=
        digitsVal_lt t2 (fun x hx => h2 x (List.mem_cons_of_mem _ hx))
      have e1 : digitsVal (c1 :: t1)
          = (c1.toNat - 128) * 50000 ^ t1.length + digitsVal t1 := by
        simp only [digitsVal, List.foldl_cons]
        rw [digitsVal_go]
        simp [digitsVal]
      have e2 : digitsVal (c2 :: t2)
          = (c2.toNat - 128) * 50000 ^ t2.length + digitsVal t2 := by
        simp only [digitsVal, List.foldl_cons]
        rw [digitsVal_go]
        simp [digitsVal]
      rw [e1, e2, ← hlent] at hv
      set P := 50000 ^ t1.length with hP
      rw [← hlent] at hv2
      have hdig : c1.toNat - 128 = c2.toNat - 128 := by
        have q1 : ((c1.toNat - 128) * P + digitsVal t1) / P = c1.toNat - 128 := by
          rw [Nat.add_comm, Nat.add_mul_div_right _ _ (by positivity : 0 < P),
            Nat.div_eq_of_lt hv1]
          omega
        have q2 : ((c2.toNat - 128) * P + digitsVal t2) / P = c2.toNat - 128 := by
          rw [Nat.add_comm, Nat.add_mul_div_right _ _ (by positivity : 0 < P),
            Nat.div_eq_of_lt hv2]
          omega
        rw [← q1, ← q2, hv]
      have hrest : digitsVal t1 = digitsVal t2 := by
        have q1 : ((c1.toNat - 128) * P + digitsVal t1) % P = digitsVal t1 := by
          rw [Nat.add_comm, Nat.add_mul_mod_self_right]
          exact Nat.mod_eq_of_lt hv1
        have q2 : ((c2.toNat - 128) * P + digitsVal t2) % P = digitsVal t2 := by
          rw [Nat.add_comm, Nat.add_mul_mod_self_right]
          exact Nat.mod_eq_of_lt hv2
        rw [← q1, ← q2, hv]
      have hc : c1 = c2 := char_eq_of_toNat_eq (by omega)
      have ht : t1 = t2 :=
        ih t2 hlent (fun x hx => h1 x (List.mem_cons_of_mem _ hx))
          (fun x hx => h2 x (List.mem_cons_of_mem _ hx)) hrest
      rw [hc, ht]

theorem intDecode_intCode (i : Int) : intDecode (intCode i) = i := by
  cases i with
  | ofNat n =>
    simp only [intCode, intDecode]
    have h2 : 2 * n % 2 = 0 := by omega
    rw [if_pos h2]
    congr 1
    omega
  | negSucc n =>
    simp only [intCode, intDecode]
    have h2 : (2 * n + 1) % 2 ≠ 0 := by omega
    rw [if_neg h2]
    congr 1
    omega

theorem strToNum_numToStr (n : Nat) : strToNum (numToStr n) = some n := by
  rw [strToNum, numToStr, digitsToNat_natDigits (by omega : 0 < n + 1)]
  simp

theorem numToStr_ne_nil (n : Nat) : numToStr n ≠ [] :=
  natDigits_ne_nil (by omega)

theorem numToStr_all_isWide (n : Nat) : ∀ c ∈ numToStr n, isWide c = true :=
  natDigits_all_isWide (n + 1)

/-! ### Splitting lemmas -/

theorem splitFirst_of_not_mem {sep : Char} : ∀ {l : Str}, sep ∉ l → splitFirst sep l = none := by
  intro l
  induction l with
  | nil => intro _; rfl
  | cons c rest ih =>
    intro h
    have hc : ¬ c = sep := fun hcontra => h (hcontra ▸ List.mem_cons_self _ _)
    have hrest : sep ∉ rest := fun hcontra => h (List.mem_cons_of_mem _ hcontra)
    simp only [splitFirst, hc, if_false, ih hrest]
    rfl

theorem splitFirst_append {sep : Char} : ∀ {a : Str} (b : Str), sep ∉ a →
    splitFirst sep (a ++ sep :: b) = some (a, b) := by
  intro a
  induction a with
  | nil => intro b _; simp [splitFirst]
  | cons c rest ih =>
    intro b h
    have hc : ¬ c = sep := fun hcontra => h (hcontra ▸ List.mem_cons_self _ _)
    have hrest : sep ∉ rest := fun hcontra => h (List.mem_cons_of_mem _ hcontra)
    rw [List.cons_append]
    simp only [splitFirst, hc, if_false]
    rw [ih b hrest]
    rfl

theorem splitFirst_eq_some {sep : Char} : ∀ {l a b : Str},
    splitFirst sep l = some (a, b) → l = a ++ sep :: b ∧ sep ∉ a := by
  intro l
  induction l with
  | nil => intro a b h; simp [splitFirst] at h
  | cons c rest ih =>
    intro a b h
    by_cases hc : c = sep
    · subst hc
      simp only [splitFirst, if_pos rfl, Option.some_inj, Prod.mk.injEq] at h
      obtain ⟨rfl, rfl⟩ := h
      exact ⟨rfl, by simp⟩
    · simp only [splitFirst, hc, if_false] at h
      cases hsf : splitFirst sep rest with
      | none => rw [hsf] at h; simp at h
      | some p =>
        obtain ⟨p1, p2⟩ := p
        rw [hsf] at h
        simp only [Option.map_some', Option.some_inj, Prod.mk.injEq] at h
        obtain ⟨rfl, rfl⟩ := h
        obtain ⟨hl, hmem⟩ := ih hsf
        constructor
        · rw [hl]; simp
        · intro hcontra
          rcases List.mem_cons.1 hcontra with h1 | h1
          · exact hc h1.symm
          · exact hmem h1

/-! ### Wire-format lemmas -/

theorem not_special_of_isWide {c : Char} (h : isWide c = true) :
    c ≠ '.' ∧ c ≠ '|' ∧ c ≠ 'n' ∧ c ≠ 's' ∧ c ≠ ' ' := by
  refine ⟨?_, ?_, ?_, ?_, ?_⟩ <;> · rintro rfl; simp [isWide] at h

theorem parseSub_s (rest : Str) :
    parseSub ('s' :: rest) = (strToNum rest).map (fun n => some (strDecode n)) := by
  rw [parseSub, if_neg (by simp), if_pos rfl]

theorem parseSub_some_chars {l : Str} {v : Option Str} (h : parseSub l = some v) :
    ∀ c ∈ l, c = 'n' ∨ c = 's' ∨ isWide c = true := by
  intro c hc
  cases l with
  | nil => simp [parseSub] at h
  | cons b0 bt =>
    by_cases h1 : b0 = 'n' ∧ bt = []
    · obtain ⟨rfl, rfl⟩ := h1
      simp only [List.mem_singleton] at hc
      exact Or.inl hc
    · rw [parseSub, if_neg h1] at h
      by_cases h2 : b0 = 's'
      · subst h2
        rw [if_pos rfl] at h
        rcases List.mem_cons.1 hc with h3 | h3
        · exact Or.inr (Or.inl h3)
        · cases hsn : strToNum bt with
          | none => rw [hsn] at h; simp at h
          | some nv =>
            rw [strToNum] at hsn
            cases hd : digitsToNat bt with
            | none => rw [hd] at hsn; simp at hsn
            | some dv => exact Or.inr (Or.inr ((digitsToNat_some_all hd).2.1 c h3))
      · rw [if_neg h2] at h
        simp at h

theorem mem_serializeSub {c : Char} {sub : Option Str} (h : c ∈ serializeSub sub) :
    c = 'n' ∨ c = 's' ∨ isWide c = true := by
  cases sub with
  | none =>
    simp only [serializeSub, List.mem_singleton] at h
    exact Or.inl h
  | some s =>
    simp only [serializeSub, List.mem_cons] at h
    rcases h with h | h
    · exact Or.inr (Or.inl h)
    · exact Or.inr (Or.inr (numToStr_all_isWide _ c h))

theorem parseSub_serializeSub (sub : Option Str) : parseSub (serializeSub sub) = some sub := by
  cases sub with
  | none => rw [serializeSub, parseSub, if_pos ⟨rfl, rfl⟩]
  | some s =>
    rw [serializeSub, parseSub_s, strToNum_numToStr]
    simp [strDecode_strCode]

theorem mem_serializeContent {c : Char} {alg : Str} {sub : Option Str} {exp : Int}
    (h : c ∈ serializeContent alg sub exp) :
    c = '|' ∨ c = 'n' ∨ c = 's' ∨ isWide c = true := by
  rw [serializeContent] at h
  rcases List.mem_append.1 h with h1 | h1
  · exact Or.inr (Or.inr (Or.inr (numToStr_all_isWide _ c h1)))
  · rcases List.mem_cons.1 h1 with h2 | h2
    · exact Or.inl h2
    · rcases List.mem_append.1 h2 with h3 | h3
      · rcases mem_serializeSub h3 with h4 | h4 | h4
        · exact Or.inr (Or.inl h4)
        · exact Or.inr (Or.inr (Or.inl h4))
        · exact Or.inr (Or.inr (Or.inr h4))
      · rcases List.mem_cons.1 h3 with h4 | h4
        · exact Or.inl h4
        · exact Or.inr (Or.inr (Or.inr (numToStr_all_isWide _ c h4)))

theorem dot_not_mem_serializeContent {alg : Str} {sub : Option Str} {exp : Int} :
    '.' ∉ serializeContent alg sub exp := by
  intro h
  rcases mem_serializeContent h with h1 | h1 | h1 | h1
  · exact absurd h1 (by decide)
  · exact absurd h1 (by decide)
  · exact absurd h1 (by decide)
  · exact (not_special_of_isWide h1).1 rfl

theorem bar_not_mem_numToStr {n : Nat} : '|' ∉ numToStr n := by
  intro h
  exact (not_special_of_isWide (numToStr_all_isWide n '|' h)).2.1 rfl

theorem bar_not_mem_serializeSub {sub : Option Str} : '|' ∉ serializeSub sub := by
  intro h
  rcases mem_serializeSub h with h1 | h1 | h1
  · exact absurd h1 (by decide)
  · exact absurd h1 (by decide)
  · exact (not_special_of_isWide h1).2.1 rfl

theorem parseContent_serializeContent (alg : Str) (sub : Option Str) (exp : Int) :
    parseContent (serializeContent alg sub exp) = some (alg, sub, exp) := by
  have h1 : splitFirst '|' (serializeContent alg sub exp)
      = some (numToStr (strCode alg), serializeSub sub ++ ('|' :: numToStr (intCode exp))) := by
    rw [serializeContent]
    exact splitFirst_append _ bar_not_mem_numToStr
  have h2 : splitFirst '|' (serializeSub sub ++ ('|' :: numToStr (intCode exp)))
      = some (serializeSub sub, numToStr (intCode exp)) :=
    splitFirst_append _ bar_not_mem_serializeSub
  simp only [parseContent, h1, h2, strToNum_numToStr, parseSub_serializeSub,
    strDecode_strCode, intDecode_intCode]

theorem parseContent_some_no_dot {l : Str} {x : Str × Option Str × Int}
    (h : parseContent l = some x) : '.' ∉ l := by
  rw [parseContent] at h
  split at h
  · exact absurd h (by simp)
  · rename_i aPart rest hs1
    split at h
    · exact absurd h (by simp)
    · rename_i bPart cPart hs2
      split at h
      · rename_i av bv cv ha hb hcp
        obtain ⟨hl1, _⟩ := splitFirst_eq_some hs1
        obtain ⟨hl2, _⟩ := splitFirst_eq_some hs2
        have haw : ∀ c ∈ aPart, isWide c = true := by
          rw [strToNum] at ha
          cases hd : digitsToNat aPart with
          | none => rw [hd] at ha; simp at ha
          | some dv => exact (digitsToNat_some_all hd).2.1
        have hcw : ∀ c ∈ cPart, isWide c = true := by
          rw [strToNum] at hcp
          cases hd : digitsToNat cPart with
          | none => rw [hd] at hcp; simp at hcp
          | some dv => exact (digitsToNat_some_all hd).2.1
        have hbw : ∀ c ∈ bPart, c = 'n' ∨ c = 's' ∨ isWide c = true :=
          parseSub_some_chars hb
        intro hmem
        rw [hl1, hl2] at hmem
        simp only [List.mem_append, List.mem_cons] at hmem
        rcases hmem with hm | hm | hm | hm | hm
        · exact (not_special_of_isWide (haw _ hm)).1 rfl
        · exact absurd hm (by decide)
        · rcases hbw _ hm with h1 | h1 | h1
          · exact absurd h1 (by decide)
          · exact absurd h1 (by decide)
          · exact (not_special_of_isWide h1).1 rfl
        · exact absurd hm (by decide)
        · exact (not_special_of_isWide (hcw _ hm)).1 rfl
      · exact absurd h (by simp)

theorem mac_pos {key : Str} (h : key ≠ []) (msg : Str) : 0 < mac key msg := by
  rw [mac, Nat.pair]
  have := strCode_pos h
  split <;> nlinarith [Nat.zero_le (strCode msg)]

theorem mac_inj_msg {key m1 m2 : Str} (h : mac key m1 = mac key m2) : m1 = m2 := by
  rw [mac, mac] at h
  exact strCode_inj (Nat.pair_eq_pair.1 h).2

theorem decode_encode {key : Str} (hkey : key ≠ []) (alg : Str) (algs : List Str)
    (sub : Option Str) (exp : Int) (now : Int) :
    decodeJwt key algs now (encodeJwt key alg sub exp)
      = if alg ∈ algs ∧ now < exp then some ⟨sub, exp⟩ else none := by
  have hdot : '.' ∉ natDigits (mac key (serializeContent alg sub exp)) := by
    intro h
    exact (not_special_of_isWide (natDigits_all_isWide _ '.' h)).1 rfl
  have hsplit : splitFirst '.' (encodeJwt key alg sub exp)
      = some (natDigits (mac key (serializeContent alg sub exp)), serializeContent alg sub exp) := by
    rw [encodeJwt]
    exact splitFirst_append _ hdot
  simp only [decodeJwt, hsplit, digitsToNat_natDigits (mac_pos hkey (serializeContent alg sub exp)),
    parseContent_serializeContent]
  by_cases hcond : alg ∈ algs ∧ now < exp
  · rw [if_pos ⟨trivial, hcond.1, hcond.2⟩, if_pos hcond]
  · rw [if_neg (by intro hcontra; exact hcond ⟨hcontra.2.1, hcontra.2.2⟩), if_neg hcond]

/-- Changing any single character of a well-formed token makes
`decodeJwt` fail: the signature no longer matches, the numeral parse
fails, or the wire structure is destroyed. -/
theorem decode_tampered {key : Str} (hkey : key ≠ []) (alg : Str) (algs : List Str)
    (sub : Option Str) (exp : Int) (now : Int) (pre suf : Str) (c0 c : Char)
    (hsplit : encodeJwt key alg sub exp = pre ++ c0 :: suf) (hne : c ≠ c0) :
    decodeJwt key algs now (pre ++ c :: suf) = none := by
  set content := serializeContent alg sub exp with hcontent
  set ds := natDigits (mac key content) with hds
  have hds_wide : ∀ x ∈ ds, isWide x = true := natDigits_all_isWide _
  have hds_nodot : '.' ∉ ds := fun hmem => (not_special_of_isWide (hds_wide _ hmem)).1 rfl
  have hcontent_nodot : '.' ∉ content := by
    rw [hcontent]
    exact dot_not_mem_serializeContent
  have hpcc : parseContent content = some (alg, sub, exp) := by
    rw [hcontent]
    exact parseContent_serializeContent alg sub exp
  have hdt : digitsToNat ds = some (mac key content) := by
    rw [hds]
    exact digitsToNat_natDigits (mac_pos hkey _)
  have hvds : digitsVal ds = mac key content := by
    rw [hds]
    exact digitsVal_natDigits _
  have htok : ds ++ '.' :: content = pre ++ c0 :: suf := hsplit
  rcases List.append_eq_append_iff.1 htok with ⟨a', ha1, ha2⟩ | ⟨c', hc1, hc2⟩
  · cases a' with
    | nil =>
      simp only [List.append_nil] at ha1
      simp only [List.nil_append] at ha2
      injection ha2 with hdot hsuf
      subst ha1
      have hnodot : '.' ∉ ds ++ c :: suf := by
        intro hmem
        rcases List.mem_append.1 hmem with hm | hm
        · exact hds_nodot hm
        · rcases List.mem_cons.1 hm with hm1 | hm1
          · exact hne (hm1.symm.trans hdot)
          · exact hcontent_nodot (hsuf.symm ▸ hm1)
      rw [decodeJwt, splitFirst_of_not_mem hnodot]
    | cons a0 atail =>
      rw [List.cons_append] at ha2
      injection ha2 with hdot hcon
      subst ha1
      have hdot2 : a0 = '.' := hdot.symm
      subst hdot2
      have hmove : (ds ++ '.' :: atail) ++ c :: suf = ds ++ '.' :: (atail ++ c :: suf) := by
        simp [List.append_assoc]
      rw [hmove]
      cases hpc : parseContent (atail ++ c :: suf) with
      | none =>
        simp only [decodeJwt, splitFirst_append _ hds_nodot, hdt, hpc]
      | some x =>
        obtain ⟨xa, xs, xe⟩ := x
        have hne_content : atail ++ c :: suf ≠ content := by
          rw [hcon]
          intro hcontra
          have h2 := List.append_cancel_left hcontra
          injection h2 with h3 _
          exact hne h3
        have hmac_ne : mac key content ≠ mac key (atail ++ c :: suf) := by
          intro hcontra
          exact hne_content (mac_inj_msg hcontra.symm)
        simp only [decodeJwt, splitFirst_append _ hds_nodot, hdt, hpc]
        rw [if_neg (by intro hcontra; exact hmac_ne hcontra.1)]
  · cases c' with
    | nil =>
      simp only [List.append_nil] at hc1
      simp only [List.nil_append] at hc2
      injection hc2 with hdot hsuf
      have hc1s : pre = ds := hc1.symm
      subst hc1s
      have hnodot : '.' ∉ ds ++ c :: suf := by
        intro hmem
        rcases List.mem_append.1 hmem with hm | hm
        · exact hds_nodot hm
        · rcases List.mem_cons.1 hm with hm1 | hm1
          · exact hne (hm1.symm.trans hdot.symm)
          · exact hcontent_nodot (hsuf ▸ hm1)
      rw [decodeJwt, splitFirst_of_not_mem hnodot]
    | cons d0 ctail =>
      rw [List.cons_append] at hc2
      obtain ⟨hd0, hsuf⟩ := List.cons_eq_cons.1 hc2
      subst hsuf
      have hd0s : d0 = c0 := hd0.symm
      subst hd0s
      have hpre_wide : ∀ x ∈ pre, isWide x = true := by
        intro x hx
        exact hds_wide x (by rw [hc1]; exact List.mem_append_left _ hx)
      have hctail_wide : ∀ x ∈ ctail, isWide x = true := by
        intro x hx
        exact hds_wide x (by
          rw [hc1]
          exact List.mem_append_right _ (List.mem_cons_of_mem _ hx))
      by_cases hcdot : c = '.'
      · subst hcdot
        have hpre_nodot : '.' ∉ pre := by
          intro hmem
          exact (not_special_of_isWide (hpre_wide _ hmem)).1 rfl
        have hpc : parseContent (ctail ++ '.' :: content) = none := by
          cases hp : parseContent (ctail ++ '.' :: content) with
          | none => rfl
          | some x =>
            exact absurd (List.mem_append_right _ (List.mem_cons_self _ _))
              (parseContent_some_no_dot hp)
        cases hdtp : digitsToNat pre with
        | none => simp only [decodeJwt, splitFirst_append _ hpre_nodot, hdtp, hpc]
        | some v => simp only [decodeJwt, splitFirst_append _ hpre_nodot, hdtp, hpc]
      · have hds_nodot2 : '.' ∉ pre ++ c :: ctail := by
          intro hmem
          rcases List.mem_append.1 hmem with hm | hm
          · exact (not_special_of_isWide (hpre_wide _ hm)).1 rfl
          · rcases List.mem_cons.1 hm with hm1 | hm1
            · exact hcdot hm1.symm
            · exact (not_special_of_isWide (hctail_wide _ hm1)).1 rfl
        have hmove : pre ++ c :: (ctail ++ '.' :: content)
            = (pre ++ c :: ctail) ++ '.' :: content := by
          simp [List.append_assoc]
        rw [hmove]
        by_cases hcw : isWide c = true
        · have hall : ∀ x ∈ pre ++ c :: ctail, isWide x = true := by
            intro x hx
            rcases List.mem_append.1 hx with hm | hm
            · exact hpre_wide _ hm
            · rcases List.mem_cons.1 hm with hm1 | hm1
              · exact hm1 ▸ hcw
              · exact hctail_wide _ hm1
          have hne_nil : pre ++ c :: ctail ≠ [] := by simp
          have hdt2 : digitsToNat (pre ++ c :: ctail)
              = some (digitsVal (pre ++ c :: ctail)) := by
            rw [digitsToNat, if_pos ⟨hne_nil, List.all_eq_true.2 hall⟩]
          have hvalne : digitsVal (pre ++ c :: ctail) ≠ mac key content := by
            intro hcontra
            have hlen : (pre ++ c :: ctail).length = ds.length := by
              rw [hc1]
              simp
            have heq : pre ++ c :: ctail = ds :=
              digitsVal_inj _ _ hlen hall hds_wide (by rw [hcontra, hvds])
            rw [hc1] at heq
            have h2 := List.append_cancel_left heq
            injection h2 with h3 _
            exact hne h3
          simp only [decodeJwt, splitFirst_append _ hds_nodot2, hdt2, hpcc]
          rw [if_neg (by intro hcontra; exact hvalne hcontra.1)]
        · have hdt2 : digitsToNat (pre ++ c :: ctail) = none :=
            digitsToNat_none_of_bad (List.mem_append_right _ (List.mem_cons_self _ _))
              (by simpa using hcw)
          simp only [decodeJwt, splitFirst_append _ hds_nodot2, hdt2, hpcc]

/-! ### Header-parsing helper lemmas -/

theorem takeWhile_scheme {scheme : Str} (rest : Str) (h : ' ' ∉ scheme) :
    (scheme ++ ' ' :: rest).takeWhile (fun c => decide (c ≠ ' ')) = scheme := by
  induction scheme with
  | nil => simp [List.takeWhile]
  | cons c t ih =>
    have hc : c ≠ ' ' := fun hcontra => h (hcontra ▸ List.mem_cons_self _ _)
    have ht : ' ' ∉ t := fun hcontra => h (List.mem_cons_of_mem _ hcontra)
    simp only [List.cons_append, List.takeWhile_cons]
    rw [if_pos (by simpa using hc), ih ht]

theorem dropWhile_scheme {scheme : Str} (rest : Str) (h : ' ' ∉ scheme) :
    (scheme ++ ' ' :: rest).dropWhile (fun c => decide (c ≠ ' ')) = ' ' :: rest := by
  induction scheme with
  | nil => simp [List.dropWhile]
  | cons c t ih =>
    have hc : c ≠ ' ' := fun hcontra => h (hcontra ▸ List.mem_cons_self _ _)
    have ht : ' ' ∉ t := fun hcontra => h (List.mem_cons_of_mem _ hcontra)
    simp only [List.cons_append, List.dropWhile_cons]
    rw [if_pos (by simpa using hc)]
    exact ih ht

theorem splitSp_no_space {l : Str} (h : ' ' ∉ l) : splitSp l = [l] := by
  induction l with
  | nil => rfl
  | cons c t ih =>
    have hc : ¬ c = ' ' := fun hcontra => h (hcontra ▸ List.mem_cons_self _ _)
    have ht : ' ' ∉ t := fun hcontra => h (List.mem_cons_of_mem _ hcontra)
    rw [splitSp, if_neg hc, ih ht]

theorem splitSp_append {a : Str} (b : Str) (h : ' ' ∉ a) :
    splitSp (a ++ ' ' :: b) = a :: splitSp b := by
  induction a with
  | nil => simp [splitSp]
  | cons c t ih =>
    have hc : ¬ c = ' ' := fun hcontra => h (hcontra ▸ List.mem_cons_self _ _)
    have ht : ' ' ∉ t := fun hcontra => h (List.mem_cons_of_mem _ hcontra)
    rw [List.cons_append, splitSp, if_neg hc, ih ht]

theorem mem_encodeJwt {c : Char} {key alg : Str} {sub : Option Str} {exp : Int}
    (h : c ∈ encodeJwt key alg sub exp) :
    c = '.' ∨ c = '|' ∨ c = 'n' ∨ c = 's' ∨ isWide c = true := by
  rw [encodeJwt] at h
  rcases List.mem_append.1 h with h1 | h1
  · exact Or.inr (Or.inr (Or.inr (Or.inr (natDigits_all_isWide _ c h1))))
  · rcases List.mem_cons.1 h1 with h2 | h2
    · exact Or.inl h2
    · rcases mem_serializeContent h2 with h3 | h3 | h3 | h3
      · exact Or.inr (Or.inl h3)
      · exact Or.inr (Or.inr (Or.inl h3))
      · exact Or.inr (Or.inr (Or.inr (Or.inl h3)))
      · exact Or.inr (Or.inr (Or.inr (Or.inr h3)))

theorem space_not_mem_encodeJwt {key alg : Str} {sub : Option Str} {exp : Int} :
    ' ' ∉ encodeJwt key alg sub exp := by
  intro h
  rcases mem_encodeJwt h with h1 | h1 | h1 | h1 | h1
  · exact absurd h1 (by decide)
  · exact absurd h1 (by decide)
  · exact absurd h1 (by decide)
  · exact absurd h1 (by decide)
  · exact (not_special_of_isWide h1).2.2.2.2 rfl

theorem encodeJwt_ne_nil {key alg : Str} {sub : Option Str} {exp : Int} :
    encodeJwt key alg sub exp ≠ [] := by
  rw [encodeJwt]
  simp

theorem httpBearer_bearer (tok : Str) (hsp : ' ' ∉ tok) (hne : tok ≠ []) :
    FastApi.httpBearer (some ("Bearer".toList ++ (' ' :: tok))) = .ok tok := by
  have hbs : ' ' ∉ "Bearer".toList := by decide
  simp only [FastApi.httpBearer, takeWhile_scheme tok hbs, dropWhile_scheme tok hbs,
    List.tail_cons]
  rw [if_neg (by
    intro hcontra
    rcases hcontra with h1 | h1 | h1
    · exact absurd h1 (by simp)
    · exact absurd h1 (by decide)
    · exact hne h1)]
  rw [if_neg (by
    intro hcontra
    exact hcontra (by decide))]

theorem splitSp_bearer (tok : Str) (hsp : ' ' ∉ tok) :
    (splitSp ("Bearer".toList ++ (' ' :: tok)))[1]? = some tok := by
  rw [splitSp_append _ (by decide), splitSp_no_space hsp]
  rfl

/-! ### Authentication pipeline helper lemmas -/

theorem find_username_self {db : List User} {user : User}
    (hnodup : (db.map User.username).Nodup) (hmem : user ∈ db) :
    db.find? (fun u => decide (u.username = user.username)) = some user := by
  cases hf : db.find? (fun u => decide (u.username = user.username)) with
  | none =>
    exfalso
    have := List.find?_eq_none.1 hf user hmem
    simp at this
  | some w =>
    have hwmem := List.mem_of_find?_eq_some hf
    have hwuser : w.username = user.username := by
      have := List.find?_some hf
      simpa using this
    rw [List.inj_on_of_nodup_map hnodup hwmem hmem hwuser]

theorem authenticate_user_iff {db : List User} (username password : Str)
    (hnodup : (db.map User.username).Nodup) (user : User) :
    FastApi.authenticate_user db username password = some user ↔
      user ∈ db ∧ user.username = username
        ∧ verify_password password user.hashed_password = true := by
  constructor
  · intro h
    rw [FastApi.authenticate_user] at h
    cases hf : db.find? (fun u => decide (u.username = username)) with
    | none => rw [hf] at h; simp at h
    | some w =>
      simp only [hf] at h
      by_cases hv : verify_password password w.hashed_password
      · rw [if_pos hv] at h
        have hw : w = user := by injection h
        subst hw
        refine ⟨List.mem_of_find?_eq_some hf, ?_, hv⟩
        have := List.find?_some hf
        simpa using this
      · rw [if_neg hv] at h
        simp at h
  · rintro ⟨hmem, huser, hv⟩
    rw [FastApi.authenticate_user]
    have hf : db.find? (fun u => decide (u.username = username)) = some user := by
      rw [← huser]
      exact find_username_self hnodup hmem
    simp only [hf, hv, if_true]

theorem fastapi_verify_encode_before {sub : Str} {e t : Int} (h : t < e) :
    FastApi.verify_token (encodeJwt FastApi.SECRET_KEY FastApi.ALGORITHM (some sub) e) t
      = some sub := by
  have hkey : FastApi.SECRET_KEY ≠ [] := by decide
  have hd : decodeJwt FastApi.SECRET_KEY [FastApi.ALGORITHM] t
      (encodeJwt FastApi.SECRET_KEY FastApi.ALGORITHM (some sub) e)
      = some ⟨some sub, e⟩ := by
    rw [decode_encode hkey, if_pos ⟨List.mem_singleton.2 rfl, h⟩]
  simp only [FastApi.verify_token, hd]

theorem fastapi_verify_encode_after {alg : Str} {sub : Option Str} {e t : Int}
    (h : ¬ t < e) :
    FastApi.verify_token (encodeJwt FastApi.SECRET_KEY alg sub e) t = none := by
  have hkey : FastApi.SECRET_KEY ≠ [] := by decide
  have hd : decodeJwt FastApi.SECRET_KEY [FastApi.ALGORITHM] t
      (encodeJwt FastApi.SECRET_KEY alg sub e) = none := by
    rw [decode_encode hkey, if_neg (fun hc => h hc.2)]
  simp only [FastApi.verify_token, hd]

theorem flask_verify_encode_before {sub : Str} {e t : Int} (h : t < e) :
    FlaskApp.verify_token (encodeJwt FlaskApp.SECRET_KEY FlaskApp.ALGORITHM (some sub) e) t
      = some sub := by
  have hkey : FlaskApp.SECRET_KEY ≠ [] := by decide
  have hd : decodeJwt FlaskApp.SECRET_KEY [FlaskApp.ALGORITHM] t
      (encodeJwt FlaskApp.SECRET_KEY FlaskApp.ALGORITHM (some sub) e)
      = some ⟨some sub, e⟩ := by
    rw [decode_encode hkey, if_pos ⟨List.mem_singleton.2 rfl, h⟩]
  simp only [FlaskApp.verify_token, hd]

theorem flask_verify_encode_after {alg : Str} {sub : Option Str} {e t : Int}
    (h : ¬ t < e) :
    FlaskApp.verify_token (encodeJwt FlaskApp.SECRET_KEY alg sub e) t = none := by
  have hkey : FlaskApp.SECRET_KEY ≠ [] := by decide
  have hd : decodeJwt FlaskApp.SECRET_KEY [FlaskApp.ALGORITHM] t
      (encodeJwt FlaskApp.SECRET_KEY alg sub e) = none := by
    rw [decode_encode hkey, if_neg (fun hc => h hc.2)]
  simp only [FlaskApp.verify_token, hd]

theorem fastapi_guard_on_bearer (db : List User) (tok : Str) (now : Int)
    (hsp : ' ' ∉ tok) (hne : tok ≠ []) :
    FastApi.get_current_user db (some ("Bearer".toList ++ (' ' :: tok))) now
      = (match FastApi.verify_token tok now with
         | none => .rejected 401 ("Could not validate credentials".toList)
         | some username =>
           match db.find? (fun u => decide (u.username = username)) with
           | none => .rejected 401 ("Could not validate credentials".toList)
           | some user => .ok user) := by
  simp only [FastApi.get_current_user, httpBearer_bearer tok hsp hne]

theorem flask_guard_on_bearer (db : List User) (tok : Str) (now : Int)
    (hsp : ' ' ∉ tok) (hne : tok ≠ []) :
    FlaskApp.token_required db (some ("Bearer".toList ++ (' ' :: tok))) now
      = (if tok = [] then .rejected 401 ("Token is missing".toList)
         else match FlaskApp.verify_token tok now with
         | none => .rejected 401 ("Token is invalid".toList)
         | some username =>
           if username = [] then .rejected 401 ("Token is invalid".toList)
           else match db.find? (fun u => decide (u.username = username)) with
           | none => .rejected 401 ("User not found".toList)
           | some user => .ok user) := by
  simp only [FlaskApp.token_required, splitSp_bearer tok hsp]

/-! ### Claims -/

/-- C4: for every plaintext password `p`,
`verify_password p (get_password_hash p)` returns true, and for every
pair of distinct plaintexts `p1 ≠ p2`,
`verify_password p1 (get_password_hash p2)` returns false (for any
salt drawn by the hash). -/
theorem password_hash_verify_spec (salt : Nat) (p p1 p2 : Str) :
    verify_password p (get_password_hash salt p) = true
    ∧ (p1 ≠ p2 → verify_password p1 (get_password_hash salt p2) = false) := by
  constructor
  · simp [verify_password, get_password_hash]
  · intro hne
    simp only [verify_password, get_password_hash, decide_eq_false_iff_not]
    intro hcontra
    exact hne (strCode_inj (Nat.pair_eq_pair.1 hcontra).2).symm

theorem password_hash_verify_spec_witness :
    ("aa".toList ≠ "bb".toList)
    ∧ (verify_password "aa".toList (get_password_hash 3 "aa".toList) = true
      ∧ ("aa".toList ≠ "bb".toList →
        verify_password "aa".toList (get_password_hash 3 "bb".toList) = false)) :=
  ⟨by decide, password_hash_verify_spec 3 "aa".toList "aa".toList "bb".toList⟩

/-- C2: over a store with unique usernames, `authenticate_user`
returns the principal with the given username precisely when that
principal exists and the password verifies against its stored hash;
in every other case it returns `none`, one and the same signal for
"unknown user" and "wrong password". -/
theorem authenticate_user_spec (db : List User) (username password : Str)
    (hnodup : (db.map User.username).Nodup) :
    (∀ user : User,
      FastApi.authenticate_user db username password = some user ↔
        user ∈ db ∧ user.username = username
          ∧ verify_password password user.hashed_password = true)
    ∧ (FastApi.authenticate_user db username password = none ↔
        ¬ ∃ user ∈ db, user.username = username
          ∧ verify_password password user.hashed_password = true) := by
  have hiff := fun user => authenticate_user_iff username password hnodup user
  refine ⟨hiff, ?_, ?_⟩
  · rintro h ⟨user, hmem, huser, hv⟩
    have := (hiff user).2 ⟨hmem, huser, hv⟩
    rw [h] at this
    simp at this
  · intro h
    cases hx : FastApi.authenticate_user db username password with
    | none => rfl
    | some user =>
      exfalso
      have := (hiff user).1 hx
      exact h ⟨user, this.1, this.2.1, this.2.2⟩

theorem authenticate_user_spec_witness :
    ((([⟨1, "admin".toList, "e".toList, get_password_hash 3 "pw".toList, true⟩] : List User).map
        User.username).Nodup)
    ∧ FastApi.authenticate_user
        [⟨1, "admin".toList, "e".toList, get_password_hash 3 "pw".toList, true⟩]
        "admin".toList "pw".toList
      = some ⟨1, "admin".toList, "e".toList, get_password_hash 3 "pw".toList, true⟩ :=
  ⟨by decide,
    ((authenticate_user_spec
      [⟨1, "admin".toList, "e".toList, get_password_hash 3 "pw".toList, true⟩]
      "admin".toList "pw".toList (by decide)).1 _).2 ⟨by decide, by decide, by decide⟩⟩

/-- C3: a token issued by `create_access_token` for subject `sub` with
delta `d` carries expiry `now + d` (default delta: 30 minutes), and in
both variants `verify_token` yields the subject at any time before the
expiry and fails at any time past it. -/
theorem token_issue_expiry_spec (sub : Str) (d now : Int) :
    (∀ t : Int, t < now + d →
      decodeJwt FastApi.SECRET_KEY [FastApi.ALGORITHM] t
        (FastApi.create_access_token (some sub) (some d) now) = some ⟨some sub, now + d⟩)
    ∧ (∀ t : Int, t < now + d →
      FastApi.verify_token (FastApi.create_access_token (some sub) (some d) now) t = some sub)
    ∧ (∀ t : Int, now + d < t →
      FastApi.verify_token (FastApi.create_access_token (some sub) (some d) now) t = none)
    ∧ (∀ t : Int, t < now + 30 * 60 →
      FastApi.verify_token (FastApi.create_access_token (some sub) none now) t = some sub)
    ∧ (∀ t : Int, now + 30 * 60 < t →
      FastApi.verify_token (FastApi.create_access_token (some sub) none now) t = none)
    ∧ (∀ t : Int, t < now + d →
      FlaskApp.verify_token (FlaskApp.create_access_token (some sub) (some d) now) t = some sub)
    ∧ (∀ t : Int, now + d < t →
      FlaskApp.verify_token (FlaskApp.create_access_token (some sub) (some d) now) t = none)
    ∧ (∀ t : Int, t < now + 30 * 60 →
      FlaskApp.verify_token (FlaskApp.create_access_token (some sub) none now) t = some sub)
    ∧ (∀ t : Int, now + 30 * 60 < t →
      FlaskApp.verify_token (FlaskApp.create_access_token (some sub) none now) t = none) := by
  have hkeyF : FastApi.SECRET_KEY ≠ [] := by decide
  have heqF : FastApi.create_access_token (some sub) (some d) now
      = encodeJwt FastApi.SECRET_KEY FastApi.ALGORITHM (some sub) (now + d) := rfl
  have heqFd : FastApi.create_access_token (some sub) none now
      = encodeJwt FastApi.SECRET_KEY FastApi.ALGORITHM (some sub) (now + 30 * 60) := by
    rw [FastApi.create_access_token]
    norm_num [FastApi.ACCESS_TOKEN_EXPIRE_MINUTES]
  have heqFl : FlaskApp.create_access_token (some sub) (some d) now
      = encodeJwt FlaskApp.SECRET_KEY FlaskApp.ALGORITHM (some sub) (now + d) := rfl
  have heqFld : FlaskApp.create_access_token (some sub) none now
      = encodeJwt FlaskApp.SECRET_KEY FlaskApp.ALGORITHM (some sub) (now + 30 * 60) := by
    rw [FlaskApp.create_access_token]
    norm_num [FlaskApp.ACCESS_TOKEN_EXPIRE_MINUTES]
  refine ⟨?_, ?_, ?_, ?_, ?_, ?_, ?_, ?_, ?_⟩
  · intro t ht
    rw [heqF, decode_encode hkeyF, if_pos ⟨List.mem_singleton.2 rfl, ht⟩]
  · intro t ht
    rw [heqF]
    exact fastapi_verify_encode_before ht
  · intro t ht
    rw [heqF]
    exact fastapi_verify_encode_after (by omega)
  · intro t ht
    rw [heqFd]
    exact fastapi_verify_encode_before ht
  · intro t ht
    rw [heqFd]
    exact fastapi_verify_encode_after (by omega)
  · intro t ht
    rw [heqFl]
    exact flask_verify_encode_before ht
  · intro t ht
    rw [heqFl]
    exact flask_verify_encode_after (by omega)
  · intro t ht
    rw [heqFld]
    exact flask_verify_encode_before ht
  · intro t ht
    rw [heqFld]
    exact flask_verify_encode_after (by omega)

theorem token_issue_expiry_spec_witness :
    ((0 : Int) < 0 + 60)
    ∧ FastApi.verify_token (FastApi.create_access_token (some "u".toList) (some 60) 0) 0
        = some "u".toList :=
  ⟨by norm_num, (token_issue_expiry_spec "u".toList 60 0).2.1 0 (by norm_num)⟩

/-- C5: in both variants, every single-character modification of a
token issued by `create_access_token` makes `verify_token` fail, and
`verify_token` pins the signing algorithm, so a token whose header
declares any other algorithm is rejected regardless of its contents. -/
theorem token_tamper_and_alg_pinning :
    (∀ (sub : Option Str) (d now t : Int) (pre suf : Str) (c0 c : Char),
      FastApi.create_access_token sub (some d) now = pre ++ c0 :: suf → c ≠ c0 →
      FastApi.verify_token (pre ++ c :: suf) t = none)
    ∧ (∀ (sub : Option Str) (d now t : Int) (pre suf : Str) (c0 c : Char),
      FlaskApp.create_access_token sub (some d) now = pre ++ c0 :: suf → c ≠ c0 →
      FlaskApp.verify_token (pre ++ c :: suf) t = none)
    ∧ (∀ (alg : Str) (sub : Option Str) (e now : Int), alg ≠ FastApi.ALGORITHM →
      FastApi.verify_token (encodeJwt FastApi.SECRET_KEY alg sub e) now = none)
    ∧ (∀ (alg : Str) (sub : Option Str) (e now : Int), alg ≠ FlaskApp.ALGORITHM →
      FlaskApp.verify_token (encodeJwt FlaskApp.SECRET_KEY alg sub e) now = none) := by
  have hkeyF : FastApi.SECRET_KEY ≠ [] := by decide
  have hkeyFl : FlaskApp.SECRET_KEY ≠ [] := by decide
  refine ⟨?_, ?_, ?_, ?_⟩
  · intro sub d now t pre suf c0 c hsplit hne
    have hd := decode_tampered hkeyF FastApi.ALGORITHM [FastApi.ALGORITHM] sub (now + d) t
      pre suf c0 c hsplit hne
    simp only [FastApi.verify_token, hd]
  · intro sub d now t pre suf c0 c hsplit hne
    have hd := decode_tampered hkeyFl FlaskApp.ALGORITHM [FlaskApp.ALGORITHM] sub (now + d) t
      pre suf c0 c hsplit hne
    simp only [FlaskApp.verify_token, hd]
  · intro alg sub e now halg
    have hd : decodeJwt FastApi.SECRET_KEY [FastApi.ALGORITHM] now
        (encodeJwt FastApi.SECRET_KEY alg sub e) = none := by
      rw [decode_encode hkeyF,
        if_neg (by rintro ⟨hmem, -⟩; exact halg (List.mem_singleton.1 hmem))]
    simp only [FastApi.verify_token, hd]
  · intro alg sub e now halg
    have hd : decodeJwt FlaskApp.SECRET_KEY [FlaskApp.ALGORITHM] now
        (encodeJwt FlaskApp.SECRET_KEY alg sub e) = none := by
      rw [decode_encode hkeyFl,
        if_neg (by rintro ⟨hmem, -⟩; exact halg (List.mem_singleton.1 hmem))]
    simp only [FlaskApp.verify_token, hd]

theorem token_tamper_and_alg_pinning_witness :
    (FastApi.create_access_token (some "u".toList) (some 60) 0
      = [] ++ (FastApi.create_access_token (some "u".toList) (some 60) 0).headI
          :: (FastApi.create_access_token (some "u".toList) (some 60) 0).tail)
    ∧ ('.' ≠ (FastApi.create_access_token (some "u".toList) (some 60) 0).headI)
    ∧ FastApi.verify_token
        ([] ++ '.' :: (FastApi.create_access_token (some "u".toList) (some 60) 0).tail) 30
      = none
    ∧ ("XX".toList ≠ FastApi.ALGORITHM)
    ∧ FastApi.verify_token (encodeJwt FastApi.SECRET_KEY "XX".toList (some "u".toList) 99) 0
      = none :=
  ⟨by decide, by decide,
    token_tamper_and_alg_pinning.1 (some "u".toList) 60 0 30 []
      (FastApi.create_access_token (some "u".toList) (some 60) 0).tail
      (FastApi.create_access_token (some "u".toList) (some 60) 0).headI '.'
      (by decide) (by decide),
    by decide,
    token_tamper_and_alg_pinning.2.2.1 "XX".toList (some "u".toList) 99 0 (by decide)⟩

/-- C1 counterexample: in the Flask variant a request with no
Authorization header is rejected with status 401 ("Token is
missing"), not with any 403-class outcome, contradicting the claim
that the missing-credential surface is 403 in both variants. -/
theorem flask_guard_missing_header_401 :
    FlaskApp.token_required [] none 0
      = AuthOutcome.rejected 401 ("Token is missing".toList)
    ∧ ¬ ∃ m : Str, FlaskApp.token_required [] none 0 = AuthOutcome.rejected 403 m := by
  constructor
  · rfl
  · rintro ⟨m, hm⟩
    rw [show FlaskApp.token_required [] none 0
      = AuthOutcome.rejected 401 ("Token is missing".toList) from rfl] at hm
    simp at hm

/-- C1 (amended): the FastAPI variant keeps the stated asymmetry — a
missing header or a non-Bearer scheme is rejected 403 ("no
credential") while a present Bearer token failing verification is
rejected 401 — but the Flask variant rejects every failure with 401:
a missing header or a header without a second space-separated word
yields 401 "Token is missing", and a present second word that fails
verification yields 401 "Token is invalid"; the Flask guard never
inspects the scheme word. -/
theorem guard_rejection_surfaces :
    (∀ (users : List User) (now : Int),
      FastApi.get_current_user users none now
        = .rejected 403 ("Not authenticated".toList))
    ∧ (∀ (users : List User) (now : Int) (scheme cred : Str),
      ' ' ∉ scheme → scheme ≠ [] → cred ≠ [] →
      scheme.map lowerChar ≠ "bearer".toList →
      FastApi.get_current_user users (some (scheme ++ (' ' :: cred))) now
        = .rejected 403 ("Invalid authentication credentials".toList))
    ∧ (∀ (users : List User) (now : Int) (tok : Str),
      ' ' ∉ tok → tok ≠ [] → FastApi.verify_token tok now = none →
      FastApi.get_current_user users (some ("Bearer".toList ++ (' ' :: tok))) now
        = .rejected 401 ("Could not validate credentials".toList))
    ∧ (∀ (users : List User) (now : Int),
      FlaskApp.token_required users none now
        = .rejected 401 ("Token is missing".toList))
    ∧ (∀ (users : List User) (now : Int) (h : Str),
      (splitSp h)[1]? = none →
      FlaskApp.token_required users (some h) now
        = .rejected 401 ("Token is missing".toList))
    ∧ (∀ (users : List User) (now : Int) (h tok : Str),
      (splitSp h)[1]? = some tok → tok ≠ [] →
      FlaskApp.verify_token tok now = none →
      FlaskApp.token_required users (some h) now
        = .rejected 401 ("Token is invalid".toList)) := by
  refine ⟨?_, ?_, ?_, ?_, ?_, ?_⟩
  · intro users now
    rfl
  · intro users now scheme cred hsp hs hc hlower
    simp only [FastApi.get_current_user, FastApi.httpBearer,
      takeWhile_scheme cred hsp, dropWhile_scheme cred hsp, List.tail_cons]
    rw [if_neg (by
      rintro (h1 | h1 | h1)
      · exact absurd h1 (by simp)
      · exact hs h1
      · exact hc h1)]
    rw [if_pos hlower]
  · intro users now tok hsp hne hv
    rw [fastapi_guard_on_bearer users tok now hsp hne, hv]
  · intro users now
    rfl
  · intro users now h hw
    simp only [FlaskApp.token_required, hw]
  · intro users now h tok hw hne hv
    simp only [FlaskApp.token_required, hw, hne, hv, if_neg hne, if_false]

theorem guard_rejection_surfaces_witness :
    (FastApi.get_current_user [] none 0 = .rejected 403 ("Not authenticated".toList))
    ∧ (' ' ∉ "Token".toList ∧ "Token".toList ≠ ([] : Str) ∧ "abc".toList ≠ ([] : Str)
      ∧ ("Token".toList).map lowerChar ≠ "bearer".toList)
    ∧ (FastApi.get_current_user [] (some ("Token".toList ++ (' ' :: "abc".toList))) 0
        = .rejected 403 ("Invalid authentication credentials".toList))
    ∧ (' ' ∉ "abc".toList ∧ "abc".toList ≠ ([] : Str)
      ∧ FastApi.verify_token "abc".toList 0 = none)
    ∧ (FastApi.get_current_user [] (some ("Bearer".toList ++ (' ' :: "abc".toList))) 0
        = .rejected 401 ("Could not validate credentials".toList))
    ∧ (FlaskApp.token_required [] none 0 = .rejected 401 ("Token is missing".toList))
    ∧ ((splitSp "Bearer".toList)[1]? = none
      ∧ FlaskApp.token_required [] (some "Bearer".toList) 0
          = .rejected 401 ("Token is missing".toList))
    ∧ ((splitSp "Token abc".toList)[1]? = some "abc".toList
      ∧ FlaskApp.verify_token "abc".toList 0 = none
      ∧ FlaskApp.token_required [] (some "Token abc".toList) 0
          = .rejected 401 ("Token is invalid".toList)) :=
  ⟨guard_rejection_surfaces.1 [] 0,
    ⟨by decide, by decide, by decide, by decide⟩,
    guard_rejection_surfaces.2.1 [] 0 "Token".toList "abc".toList
      (by decide) (by decide) (by decide) (by decide),
    ⟨by decide, by decide, by rfl⟩,
    guard_rejection_surfaces.2.2.1 [] 0 "abc".toList (by decide) (by decide) (by rfl),
    guard_rejection_surfaces.2.2.2.1 [] 0,
    ⟨by rfl, guard_rejection_surfaces.2.2.2.2.1 [] 0 "Bearer".toList (by rfl)⟩,
    ⟨by rfl, by rfl,
      guard_rejection_surfaces.2.2.2.2.2 [] 0 "Token abc".toList "abc".toList
        (by rfl) (by decide) (by rfl)⟩⟩

/-- C6: a well-formed, validly signed, unexpired bearer token whose
subject matches no stored principal is rejected by the guard with a
401 outcome in both variants (no authentication, no unhandled
fault). -/
theorem unknown_subject_rejected_401 (users : List User) (sub : Str) (e now : Int)
    (hnouser : ∀ u ∈ users, u.username ≠ sub) (hexp : now < e) :
    (∃ m : Str, FastApi.get_current_user users
        (some ("Bearer".toList ++ (' ' ::
          encodeJwt FastApi.SECRET_KEY FastApi.ALGORITHM (some sub) e))) now
      = .rejected 401 m)
    ∧ (∃ m : Str, FlaskApp.token_required users
        (some ("Bearer".toList ++ (' ' ::
          encodeJwt FlaskApp.SECRET_KEY FlaskApp.ALGORITHM (some sub) e))) now
      = .rejected 401 m) := by
  have hfind : users.find? (fun u => decide (u.username = sub)) = none :=
    List.find?_eq_none.2 (fun u hu => by simpa using hnouser u hu)
  constructor
  · refine ⟨"Could not validate credentials".toList, ?_⟩
    simp only [fastapi_guard_on_bearer users _ now space_not_mem_encodeJwt encodeJwt_ne_nil,
      fastapi_verify_encode_before hexp, hfind]
  · by_cases hsub : sub = []
    · refine ⟨"Token is invalid".toList, ?_⟩
      rw [flask_guard_on_bearer users _ now space_not_mem_encodeJwt encodeJwt_ne_nil,
        if_neg (encodeJwt_ne_nil :
          encodeJwt FlaskApp.SECRET_KEY FlaskApp.ALGORITHM (some sub) e ≠ [])]
      simp only [flask_verify_encode_before hexp]
      rw [if_pos hsub]
    · refine ⟨"User not found".toList, ?_⟩
      rw [flask_guard_on_bearer users _ now space_not_mem_encodeJwt encodeJwt_ne_nil,
        if_neg (encodeJwt_ne_nil :
          encodeJwt FlaskApp.SECRET_KEY FlaskApp.ALGORITHM (some sub) e ≠ [])]
      simp only [flask_verify_encode_before hexp]
      rw [if_neg hsub]
      simp only [hfind]

theorem unknown_subject_rejected_401_witness :
    (∀ u ∈ ([] : List User), u.username ≠ "ghost".toList)
    ∧ ((0 : Int) < 1)
    ∧ ((∃ m : Str, FastApi.get_current_user []
        (some ("Bearer".toList ++ (' ' ::
          encodeJwt FastApi.SECRET_KEY FastApi.ALGORITHM (some "ghost".toList) 1))) 0
      = .rejected 401 m)
    ∧ (∃ m : Str, FlaskApp.token_required []
        (some ("Bearer".toList ++ (' ' ::
          encodeJwt FlaskApp.SECRET_KEY FlaskApp.ALGORITHM (some "ghost".toList) 1))) 0
      = .rejected 401 m)) :=
  ⟨by simp, by norm_num,
    unknown_subject_rejected_401 [] "ghost".toList 1 0 (by simp) (by norm_num)⟩

/-- C7: an authenticated create-resource request whose name collides
with an existing resource fails with the 400 conflict outcome and
leaves the store unchanged, in both variants. -/
theorem create_duplicate_name_conflict (users : List User) (planets : List Planet)
    (now : Int) (pc : PlanetCreate) (hdup : ∃ q ∈ planets, q.name = pc.name) :
    (∀ (hdr : Option Str) (u : User) (newId : Nat),
      FastApi.get_current_user users hdr now = .ok u →
      FastApi.create_planet users planets hdr now newId pc
        = (.error (400, "Planet with this name already exists".toList), planets))
    ∧ (∀ (hdr : Option Str) (u : User),
      FlaskApp.token_required users hdr now = .ok u →
      FlaskApp.create_planet users planets hdr now pc
        = (.error (400, "Planet with this name already exists".toList), planets)) := by
  have hfind : ∃ w, planets.find? (fun q => decide (q.name = pc.name)) = some w := by
    obtain ⟨q, hq, hname⟩ := hdup
    cases hf : planets.find? (fun q => decide (q.name = pc.name)) with
    | none =>
      exfalso
      have := List.find?_eq_none.1 hf q hq
      simp [hname] at this
    | some w => exact ⟨w, rfl⟩
  obtain ⟨w, hw⟩ := hfind
  constructor
  · intro hdr u newId hauth
    simp only [FastApi.create_planet, hauth, hw]
  · intro hdr u hauth
    simp only [FlaskApp.create_planet, hauth, hw]

theorem create_duplicate_name_conflict_witness :
    (∃ q ∈ ([⟨1, "X".toList, "t".toList, 1, 1, none, none, none, 0, 0⟩] : List Planet),
      q.name = (⟨"X".toList, "t".toList, 2, 2, none, none, none⟩ : PlanetCreate).name)
    ∧ (FastApi.get_current_user
        [⟨1, "admin".toList, "e".toList, get_password_hash 3 "pw".toList, true⟩]
        (some ("Bearer".toList ++ (' ' ::
          encodeJwt FastApi.SECRET_KEY FastApi.ALGORITHM (some "admin".toList) 60))) 1
        = .ok ⟨1, "admin".toList, "e".toList, get_password_hash 3 "pw".toList, true⟩)
    ∧ (FastApi.create_planet
        [⟨1, "admin".toList, "e".toList, get_password_hash 3 "pw".toList, true⟩]
        [⟨1, "X".toList, "t".toList, 1, 1, none, none, none, 0, 0⟩]
        (some ("Bearer".toList ++ (' ' ::
          encodeJwt FastApi.SECRET_KEY FastApi.ALGORITHM (some "admin".toList) 60))) 1 5
        ⟨"X".toList, "t".toList, 2, 2, none, none, none⟩
      = (.error (400, "Planet with this name already exists".toList),
         [⟨1, "X".toList, "t".toList, 1, 1, none, none, none, 0, 0⟩]))
    ∧ (FlaskApp.token_required
        [⟨1, "admin".toList, "e".toList, get_password_hash 3 "pw".toList, true⟩]
        (some ("Bearer".toList ++ (' ' ::
          encodeJwt FlaskApp.SECRET_KEY FlaskApp.ALGORITHM (some "admin".toList) 60))) 1
        = .ok ⟨1, "admin".toList, "e".toList, get_password_hash 3 "pw".toList, true⟩)
    ∧ (FlaskApp.create_planet
        [⟨1, "admin".toList, "e".toList, get_password_hash 3 "pw".toList, true⟩]
        [⟨1, "X".toList, "t".toList, 1, 1, none, none, none, 0, 0⟩]
        (some ("Bearer".toList ++ (' ' ::
          encodeJwt FlaskApp.SECRET_KEY FlaskApp.ALGORITHM (some "admin".toList) 60))) 1
        ⟨"X".toList, "t".toList, 2, 2, none, none, none⟩
      = (.error (400, "Planet with this name already exists".toList),
         [⟨1, "X".toList, "t".toList, 1, 1, none, none, none, 0, 0⟩])) :=
  ⟨by decide, by decide,
    (create_duplicate_name_conflict
      [⟨1, "admin".toList, "e".toList, get_password_hash 3 "pw".toList, true⟩]
      [⟨1, "X".toList, "t".toList, 1, 1, none, none, none, 0, 0⟩] 1
      ⟨"X".toList, "t".toList, 2, 2, none, none, none⟩ (by decide)).1
      (some ("Bearer".toList ++ (' ' ::
        encodeJwt FastApi.SECRET_KEY FastApi.ALGORITHM (some "admin".toList) 60)))
      ⟨1, "admin".toList, "e".toList, get_password_hash 3 "pw".toList, true⟩ 5 (by decide),
    by decide,
    (create_duplicate_name_conflict
      [⟨1, "admin".toList, "e".toList, get_password_hash 3 "pw".toList, true⟩]
      [⟨1, "X".toList, "t".toList, 1, 1, none, none, none, 0, 0⟩] 1
      ⟨"X".toList, "t".toList, 2, 2, none, none, none⟩ (by decide)).2
      (some ("Bearer".toList ++ (' ' ::
        encodeJwt FlaskApp.SECRET_KEY FlaskApp.ALGORITHM (some "admin".toList) 60)))
      ⟨1, "admin".toList, "e".toList, get_password_hash 3 "pw".toList, true⟩ (by decide)⟩

/-- C8: an authenticated update or delete naming an id absent from the
store fails with the 404 not-found outcome and leaves the store
unchanged. -/
theorem update_delete_missing_id_not_found (users : List User) (planets : List Planet)
    (now : Int) (pid : Nat) (patch : PlanetUpdate)
    (hmissing : ∀ q ∈ planets, q.id ≠ pid) :
    ∀ (hdr : Option Str) (u : User),
      FastApi.get_current_user users hdr now = .ok u →
      FastApi.update_planet users planets hdr now pid patch
        = (.error (404, "Planet not found".toList), planets)
      ∧ FastApi.delete_planet users planets hdr now pid
        = (.error (404, "Planet not found".toList), planets) := by
  have hfind : planets.find? (fun q => decide (q.id = pid)) = none :=
    List.find?_eq_none.2 (fun q hq => by simpa using hmissing q hq)
  intro hdr u hauth
  constructor
  · simp only [FastApi.update_planet, hauth, hfind]
  · simp only [FastApi.delete_planet, hauth, hfind]

theorem update_delete_missing_id_not_found_witness :
    (∀ q ∈ ([⟨1, "X".toList, "t".toList, 1, 1, none, none, none, 0, 0⟩] : List Planet),
      q.id ≠ 9)
    ∧ (FastApi.get_current_user
        [⟨1, "admin".toList, "e".toList, get_password_hash 3 "pw".toList, true⟩]
        (some ("Bearer".toList ++ (' ' ::
          encodeJwt FastApi.SECRET_KEY FastApi.ALGORITHM (some "admin".toList) 60))) 1
        = .ok ⟨1, "admin".toList, "e".toList, get_password_hash 3 "pw".toList, true⟩)
    ∧ (FastApi.update_planet
        [⟨1, "admin".toList, "e".toList, get_password_hash 3 "pw".toList, true⟩]
        [⟨1, "X".toList, "t".toList, 1, 1, none, none, none, 0, 0⟩]
        (some ("Bearer".toList ++ (' ' ::
          encodeJwt FastApi.SECRET_KEY FastApi.ALGORITHM (some "admin".toList) 60))) 1 9
        ⟨some "Y".toList, none, none, none, none, none, none⟩
      = (.error (404, "Planet not found".toList),
         [⟨1, "X".toList, "t".toList, 1, 1, none, none, none, 0, 0⟩])
      ∧ FastApi.delete_planet
        [⟨1, "admin".toList, "e".toList, get_password_hash 3 "pw".toList, true⟩]
        [⟨1, "X".toList, "t".toList, 1, 1, none, none, none, 0, 0⟩]
        (some ("Bearer".toList ++ (' ' ::
          encodeJwt FastApi.SECRET_KEY FastApi.ALGORITHM (some "admin".toList) 60))) 1 9
      = (.error (404, "Planet not found".toList),
         [⟨1, "X".toList, "t".toList, 1, 1, none, none, none, 0, 0⟩])) :=
  ⟨by decide, by decide,
    update_delete_missing_id_not_found
      [⟨1, "admin".toList, "e".toList, get_password_hash 3 "pw".toList, true⟩]
      [⟨1, "X".toList, "t".toList, 1, 1, none, none, none, 0, 0⟩] 1 9
      ⟨some "Y".toList, none, none, none, none, none, none⟩ (by decide)
      (some ("Bearer".toList ++ (' ' ::
        encodeJwt FastApi.SECRET_KEY FastApi.ALGORITHM (some "admin".toList) 60)))
      ⟨1, "admin".toList, "e".toList, get_password_hash 3 "pw".toList, true⟩ (by decide)⟩

/-- C9: the `is_active` flag is never consulted on the authentication
path: a principal stored with `is_active = false` is still returned by
`authenticate_user` on a correct password, and a valid token for that
principal still authenticates at the guard in both variants. -/
theorem inactive_user_still_authenticates (db : List User) (user : User) (password : Str)
    (e now : Int) (hnodup : (db.map User.username).Nodup) (hmem : user ∈ db)
    (hinactive : user.is_active = false)
    (hpw : verify_password password user.hashed_password = true) (hexp : now < e) :
    FastApi.authenticate_user db user.username password = some user
    ∧ FastApi.get_current_user db
        (some ("Bearer".toList ++ (' ' ::
          encodeJwt FastApi.SECRET_KEY FastApi.ALGORITHM (some user.username) e))) now
      = .ok user
    ∧ (user.username ≠ [] →
      FlaskApp.token_required db
        (some ("Bearer".toList ++ (' ' ::
          encodeJwt FlaskApp.SECRET_KEY FlaskApp.ALGORITHM (some user.username) e))) now
      = .ok user) := by
  have hfind := find_username_self hnodup hmem
  refine ⟨?_, ?_, ?_⟩
  · exact (authenticate_user_iff user.username password hnodup user).2 ⟨hmem, rfl, hpw⟩
  · rw [fastapi_guard_on_bearer db _ now space_not_mem_encodeJwt encodeJwt_ne_nil]
    simp only [fastapi_verify_encode_before hexp, hfind]
  · intro hne
    rw [flask_guard_on_bearer db _ now space_not_mem_encodeJwt encodeJwt_ne_nil,
      if_neg (encodeJwt_ne_nil :
        encodeJwt FlaskApp.SECRET_KEY FlaskApp.ALGORITHM (some user.username) e ≠ [])]
    simp only [flask_verify_encode_before hexp]
    rw [if_neg hne]
    simp only [hfind]

theorem inactive_user_still_authenticates_witness :
    ((([⟨1, "admin".toList, "e".toList, get_password_hash 3 "pw".toList, false⟩] : List User).map
        User.username).Nodup)
    ∧ ((⟨1, "admin".toList, "e".toList, get_password_hash 3 "pw".toList, false⟩ : User)
        ∈ ([⟨1, "admin".toList, "e".toList, get_password_hash 3 "pw".toList, false⟩] : List User))
    ∧ ((⟨1, "admin".toList, "e".toList, get_password_hash 3 "pw".toList, false⟩ : User).is_active
        = false)
    ∧ (verify_password "pw".toList
        (⟨1, "admin".toList, "e".toList, get_password_hash 3 "pw".toList, false⟩ : User).hashed_password
        = true)
    ∧ ((1 : Int) < 60)
    ∧ (FastApi.authenticate_user
        [⟨1, "admin".toList, "e".toList, get_password_hash 3 "pw".toList, false⟩]
        (⟨1, "admin".toList, "e".toList, get_password_hash 3 "pw".toList, false⟩ : User).username
        "pw".toList
      = some ⟨1, "admin".toList, "e".toList, get_password_hash 3 "pw".toList, false⟩
    ∧ FastApi.get_current_user
        [⟨1, "admin".toList, "e".toList, get_password_hash 3 "pw".toList, false⟩]
        (some ("Bearer".toList ++ (' ' ::
          encodeJwt FastApi.SECRET_KEY FastApi.ALGORITHM
            (some (⟨1, "admin".toList, "e".toList, get_password_hash 3 "pw".toList,
              false⟩ : User).username) 60))) 1
      = .ok ⟨1, "admin".toList, "e".toList, get_password_hash 3 "pw".toList, false⟩
    ∧ ((⟨1, "admin".toList, "e".toList, get_password_hash 3 "pw".toList, false⟩ : User).username
        ≠ [] →
      FlaskApp.token_required
        [⟨1, "admin".toList, "e".toList, get_password_hash 3 "pw".toList, false⟩]
        (some ("Bearer".toList ++ (' ' ::
          encodeJwt FlaskApp.SECRET_KEY FlaskApp.ALGORITHM
            (some (⟨1, "admin".toList, "e".toList, get_password_hash 3 "pw".toList,
              false⟩ : User).username) 60))) 1
      = .ok ⟨1, "admin".toList, "e".toList, get_password_hash 3 "pw".toList, false⟩)) :=
  ⟨by decide, by decide, by decide, by decide, by norm_num,
    inactive_user_still_authenticates
      [⟨1, "admin".toList, "e".toList, get_password_hash 3 "pw".toList, false⟩]
      ⟨1, "admin".toList, "e".toList, get_password_hash 3 "pw".toList, false⟩
      "pw".toList 60 1 (by decide) (by decide) (by decide) (by decide) (by norm_num)⟩

/-- C10: an authenticated partial update of an existing resource
rewrites exactly the provided fields plus the `updated_at` stamp:
every omitted field keeps its prior value, `id` and `created_at` are
untouched, and every resource with a different id is carried over
unchanged (and nothing new appears), in both variants. -/
theorem update_patch_frame (users : List User) (planets : List Planet)
    (now : Int) (pid : Nat) (patch : PlanetUpdate) (p : Planet)
    (hfind : planets.find? (fun q => decide (q.id = pid)) = some p) :
    (∀ (hdr : Option Str) (u : User),
      FastApi.get_current_user users hdr now = .ok u →
      FastApi.update_planet users planets hdr now pid patch
        = (.ok (applyPatch p patch now),
           planets.map (fun q => if q.id = pid then applyPatch p patch now else q)))
    ∧ (∀ (hdr : Option Str) (u : User),
      FlaskApp.token_required users hdr now = .ok u →
      FlaskApp.update_planet users planets hdr now pid patch
        = (.ok (applyPatch p patch now),
           planets.map (fun q => if q.id = pid then applyPatch p patch now else q)))
    ∧ (patch.name = none → (applyPatch p patch now).name = p.name)
    ∧ (patch.planet_type = none → (applyPatch p patch now).planet_type = p.planet_type)
    ∧ (patch.distance_from_sun = none →
        (applyPatch p patch now).distance_from_sun = p.distance_from_sun)
    ∧ (patch.radius = none → (applyPatch p patch now).radius = p.radius)
    ∧ (patch.description = none → (applyPatch p patch now).description = p.description)
    ∧ (patch.mass = none → (applyPatch p patch now).mass = p.mass)
    ∧ (patch.orbital_period = none →
        (applyPatch p patch now).orbital_period = p.orbital_period)
    ∧ (applyPatch p patch now).id = p.id
    ∧ (applyPatch p patch now).created_at = p.created_at
    ∧ (applyPatch p patch now).updated_at = now
    ∧ (∀ q ∈ planets, q.id ≠ pid →
        q ∈ planets.map (fun q2 => if q2.id = pid then applyPatch p patch now else q2))
    ∧ (∀ q ∈ planets.map (fun q2 => if q2.id = pid then applyPatch p patch now else q2),
        q.id ≠ pid → q ∈ planets) := by
  have hpid : p.id = pid := by
    have := List.find?_some hfind
    simpa using this
  refine ⟨?_, ?_, ?_, ?_, ?_, ?_, ?_, ?_, ?_, ?_, ?_, ?_, ?_, ?_⟩
  · intro hdr u hauth
    simp only [FastApi.update_planet, hauth, hfind]
  · intro hdr u hauth
    simp only [FlaskApp.update_planet, hauth, hfind]
  · intro h
    simp [applyPatch, h]
  · intro h
    simp [applyPatch, h]
  · intro h
    simp [applyPatch, h]
  · intro h
    simp [applyPatch, h]
  · intro h
    simp [applyPatch, h]
  · intro h
    simp [applyPatch, h]
  · intro h
    simp [applyPatch, h]
  · simp [applyPatch]
  · simp [applyPatch]
  · simp [applyPatch]
  · intro q hq hne
    exact List.mem_map.2 ⟨q, hq, by rw [if_neg hne]⟩
  · intro q hq hne
    obtain ⟨a, ha, hfa⟩ := List.mem_map.1 hq
    by_cases hcase : a.id = pid
    · exfalso
      rw [if_pos hcase] at hfa
      apply hne
      rw [← hfa]
      simpa [applyPatch] using hpid
    · rw [if_neg hcase] at hfa
      rw [← hfa]
      exact ha

theorem update_patch_frame_witness :
    (([⟨1, "X".toList, "t".toList, 1, 1, none, none, none, 0, 0⟩] : List Planet).find?
        (fun q => decide (q.id = 1))
      = some ⟨1, "X".toList, "t".toList, 1, 1, none, none, none, 0, 0⟩)
    ∧ (FastApi.get_current_user
        [⟨1, "admin".toList, "e".toList, get_password_hash 3 "pw".toList, true⟩]
        (some ("Bearer".toList ++ (' ' ::
          encodeJwt FastApi.SECRET_KEY FastApi.ALGORITHM (some "admin".toList) 60))) 1
        = .ok ⟨1, "admin".toList, "e".toList, get_password_hash 3 "pw".toList, true⟩)
    ∧ (FastApi.update_planet
        [⟨1, "admin".toList, "e".toList, get_password_hash 3 "pw".toList, true⟩]
        [⟨1, "X".toList, "t".toList, 1, 1, none, none, none, 0, 0⟩]
        (some ("Bearer".toList ++ (' ' ::
          encodeJwt FastApi.SECRET_KEY FastApi.ALGORITHM (some "admin".toList) 60))) 1 1
        ⟨some "Y".toList, none, none, none, none, none, none⟩
      = (.ok (applyPatch ⟨1, "X".toList, "t".toList, 1, 1, none, none, none, 0, 0⟩
            ⟨some "Y".toList, none, none, none, none, none, none⟩ 1),
         ([⟨1, "X".toList, "t".toList, 1, 1, none, none, none, 0, 0⟩] : List Planet).map
            (fun q => if q.id = 1 then
              applyPatch ⟨1, "X".toList, "t".toList, 1, 1, none, none, none, 0, 0⟩
                ⟨some "Y".toList, none, none, none, none, none, none⟩ 1 else q))) :=
  ⟨by rfl, by decide,
    (update_patch_frame
      [⟨1, "admin".toList, "e".toList, get_password_hash 3 "pw".toList, true⟩]
      [⟨1, "X".toList, "t".toList, 1, 1, none, none, none, 0, 0⟩] 1 1
      ⟨some "Y".toList, none, none, none, none, none, none⟩
      ⟨1, "X".toList, "t".toList, 1, 1, none, none, none, 0, 0⟩ (by rfl)).1
      (some ("Bearer".toList ++ (' ' ::
        encodeJwt FastApi.SECRET_KEY FastApi.ALGORITHM (some "admin".toList) 60)))
      ⟨1, "admin".toList, "e".toList, get_password_hash 3 "pw".toList, true⟩ (by decide)⟩
